import Mathlib

/-!
The object registry of JContainers (`JContainers/src/object_registry.h`).

A shallow embedding of `collections::object_registry` and of the part of the
object heap it reads and writes, followed by theorems about its operations.

* An object is identified by its address (`object_base *`), a natural number.
* `std::hash_set` and `std::hash_map` are duplicate-free lists (a set of
  addresses, a list of pairs with pairwise different keys); the uniqueness is
  part of the type, as it is for the C++ containers.
* The field `_id` of every object lives in the heap component of `World`.
* `jc_assert` aborts: an operation either returns a new world or stops at the
  failing assertion, and the world it stopped in is recorded.
* The reader/writer lock only serialises the operations; each operation is
  modelled as one atomic step.
* An archive is what the reads of `load` yield; the objects of an archive come
  with their handle and their public flag.
* The lock of an object is the number of `lock()` calls on its mutex that are
  not yet answered by an `unlock()` call.
-/

namespace collections

/-! ## Handles and objects -/

/-- The integer type behind a handle (`HandleT`). -/
abbrev HandleT := Nat

/-- The handle type (`Handle`); the cast `(Handle)id` is the identity. -/
abbrev Handle := Nat

/-- The address of an object (`object_base *`). -/
abbrev ObjPtr := Nat

/-- Modelled from the spec: the constant `HandleNull` is declared outside
`object_registry.h`; the spec reserves zero as the "no handle" sentinel, and
the lookups of the source test it with `!hdl`. -/
def HandleNull : Handle := 0

/-! ## `std::hash_set<object_base *>` -/

/-- The type `all_objects_set`: a set of object addresses, kept as the list
of its elements in iteration order. -/
structure all_objects_set where
  elems : List ObjPtr
  nodup : elems.Nodup

namespace all_objects_set

/-- The empty set. -/
def empty : all_objects_set := ⟨[], List.nodup_nil⟩

/-- Membership test, `find(&obj) != end()`. -/
def contains (s : all_objects_set) (obj : ObjPtr) : Bool := decide (obj ∈ s.elems)

/-- The call `insert(&obj)`: adds the element unless it is already there. -/
def insert (s : all_objects_set) (obj : ObjPtr) : all_objects_set :=
  if h : obj ∈ s.elems then s
  else ⟨obj :: s.elems, List.nodup_cons.mpr ⟨h, s.nodup⟩⟩

/-- The call `erase(itr)` for the iterator that `find(&obj)` returned. -/
def erase (s : all_objects_set) (obj : ObjPtr) : all_objects_set :=
  ⟨s.elems.erase obj, s.nodup.erase obj⟩

/-- The call `clear()`. -/
def clear (_s : all_objects_set) : all_objects_set := empty

end all_objects_set

/-! ## `std::hash_map<HandleT, object_base *>` -/

/-- First value stored under key `k` in a list of pairs. -/
def lookupEntry (k : HandleT) : List (HandleT × ObjPtr) → Option ObjPtr
  | [] => none
  | e :: rest => if e.1 = k then some e.2 else lookupEntry k rest

/-- The type `registry_container`: the pairs of the map, with pairwise
different keys. -/
structure registry_container where
  entries : List (HandleT × ObjPtr)
  nodupKeys : (entries.map Prod.fst).Nodup

namespace registry_container

/-- The empty map. -/
def empty : registry_container := ⟨[], List.nodup_nil⟩

/-- The keys of the map. -/
def keys (m : registry_container) : List HandleT := m.entries.map Prod.fst

/-- The call `find(k)`: `none` stands for `end()`, `some v` for an iterator
whose `second` is `v`. -/
def find (m : registry_container) (k : HandleT) : Option ObjPtr :=
  lookupEntry k m.entries

/-- The call `insert(value_type(k, v))`: a map with a key `k` is left as it
is, otherwise the pair is added. -/
def insert (m : registry_container) (k : HandleT) (v : ObjPtr) : registry_container :=
  if h : k ∈ m.entries.map Prod.fst then m
  else ⟨(k, v) :: m.entries, List.nodup_cons.mpr ⟨h, m.nodupKeys⟩⟩

/-- The call `erase(k)`: removes the pair with key `k`, if there is one. -/
def erase (m : registry_container) (k : HandleT) : registry_container :=
  ⟨m.entries.filter (fun e => decide (e.1 ≠ k)),
   m.nodupKeys.sublist ((List.filter_sublist m.entries).map Prod.fst)⟩

/-- The call `clear()`. -/
def clear (_m : registry_container) : registry_container := empty

end registry_container

/-! ## The handle allocator -/

/-- Modelled from the spec: the class `id_generator` is declared outside
`object_registry.h`. By the spec its state is the next counter value and the
pool of released handles; `allocate` prefers a released value and otherwise
issues the next unused, increasing value, never zero; `release` returns a
handle to the pool; `reset` clears all state. -/
structure id_generator where
  nextId : HandleT
  freeIds : List HandleT

namespace id_generator

/-- Modelled from the spec: the allocator of a new directory, whose first
handle is one because zero is never issued. -/
def init : id_generator := ⟨1, []⟩

/-- Modelled from the spec: `allocate`, the call `newId()`. It takes a
released handle from the pool when there is one and the counter otherwise. -/
def newId (g : id_generator) : HandleT × id_generator :=
  match g.freeIds with
  | [] => (g.nextId, { g with nextId := g.nextId + 1 })
  | h :: rest => (h, { g with freeIds := rest })

/-- Modelled from the spec: `release`, the call `reuseId(id)`. The spec
leaves the release of a handle that is not issued undefined; here it is put
into the pool like any other. -/
def reuseId (g : id_generator) (id : HandleT) : id_generator :=
  { g with freeIds := id :: g.freeIds }

/-- Modelled from the spec: `reset`, the call `u_clear()`. -/
def u_clear (_g : id_generator) : id_generator := init

end id_generator

/-! ## The registry and the world around it -/

/-- The data members of `object_registry` (the mutex apart). -/
structure object_registry where
  _map : registry_container
  _idGen : id_generator
  _all_objects : all_objects_set

/-- The registry of `explicit object_registry()`: everything empty. -/
def object_registry.empty : object_registry :=
  ⟨registry_container.empty, id_generator.init, all_objects_set.empty⟩

/-- The registry together with the field `_id` of every object. -/
structure World where
  registry : object_registry
  _id : ObjPtr → Handle

/-- An empty directory among objects that carry no handle yet. -/
def World.empty : World := ⟨object_registry.empty, fun _ => HandleNull⟩

/-- The accessor `obj._uid()`. -/
def World._uid (w : World) (obj : ObjPtr) : HandleT := w._id obj

/-- The assignment `obj._id = (Handle)id`. -/
def World.setId (w : World) (obj : ObjPtr) (id : HandleT) : World :=
  { w with _id := fun o => if o = obj then id else w._id o }

/-- Modelled from the spec: the macro `jc_assert` is declared outside
`object_registry.h`; by the spec a violated assertion aborts. A call therefore
either returns or stops at a failing `jc_assert`, in both cases with the world
as it is at that point. -/
inductive Outcome where
  | returned (w : World)
  | assert_failed (w : World)

/-- The world a call ended in. -/
def Outcome.world : Outcome → World
  | .returned w => w
  | .assert_failed w => w

/-- Whether the call hit a failing `jc_assert`. -/
def Outcome.failed : Outcome → Bool
  | .returned _ => false
  | .assert_failed _ => true

/-! ## The operations of `object_registry` -/

/-- The method `registerNewObject(obj)`. -/
def registerNewObject (w : World) (obj : ObjPtr) : Outcome :=
  if w.registry._all_objects.contains obj then .assert_failed w
  else .returned { w with registry :=
    { w.registry with _all_objects := w.registry._all_objects.insert obj } }

/-- The method `registerNewObjectId(obj)`. -/
def registerNewObjectId (w : World) (obj : ObjPtr) : Outcome :=
  if w._uid obj ≠ HandleNull then .assert_failed w
  else
    let (id, g) := w.registry._idGen.newId
    let w1 : World := { w with registry := { w.registry with _idGen := g } }
    if (w1.registry._map.find id).isSome then .assert_failed w1
    else
      let w2 : World := { w1 with registry :=
        { w1.registry with _map := w1.registry._map.insert id obj } }
      .returned (w2.setId obj id)

/-- The method `removeObject(obj)`. -/
def removeObject (w : World) (obj : ObjPtr) : Outcome :=
  let id := w._uid obj
  let w1 : World :=
    if id ≠ HandleNull then
      { w with registry := { w.registry with
          _map := w.registry._map.erase id
          _idGen := w.registry._idGen.reuseId id } }
    else w
  if w1.registry._all_objects.contains obj then
    .returned { w1 with registry :=
      { w1.registry with _all_objects := w1.registry._all_objects.erase obj } }
  else .assert_failed w1

/-- The method `u_getObject(hdl)`; `none` is `nullptr`. -/
def u_getObject (w : World) (hdl : Handle) : Option ObjPtr :=
  if hdl = 0 then none
  else
    match w.registry._map.find hdl with
    | some obj => some obj
    | none => none

/-- The method `getObject(hdl)`. -/
def getObject (w : World) (hdl : Handle) : Option ObjPtr :=
  if hdl = 0 then none else u_getObject w hdl

/-- The method `getObjectRef(hdl)`; the `object_stack_ref` it returns is
identified with the object it refers to. -/
def getObjectRef (w : World) (hdl : Handle) : Option ObjPtr :=
  if hdl = 0 then none else u_getObject w hdl

/-- The method `filter_objects(predicate)`. -/
def filter_objects (w : World) (predicate : ObjPtr → Bool) : List ObjPtr :=
  w.registry._all_objects.elems.filter predicate

/-- The method `u_clear()`. -/
def u_clear (w : World) : World :=
  { w with registry :=
    { _map := w.registry._map.clear
      _idGen := w.registry._idGen.u_clear
      _all_objects := w.registry._all_objects.clear } }

/-! ## Sequences of operations -/

/-- A call of one of the mutating operations. -/
inductive Op where
  | register (obj : ObjPtr)
  | assign_handle (obj : ObjPtr)
  | remove (obj : ObjPtr)
  | clear
  deriving DecidableEq, Repr

/-- One call. -/
def step (w : World) : Op → Outcome
  | .register obj => registerNewObject w obj
  | .assign_handle obj => registerNewObjectId w obj
  | .remove obj => removeObject w obj
  | .clear => .returned (u_clear w)

/-- The world after a sequence of calls, `none` when one of them stops at a
failing assertion. -/
def run (w : World) : List Op → Option World
  | [] => some w
  | op :: ops =>
    match step w op with
    | .returned w1 => run w1 ops
    | .assert_failed _ => none

/-- Whether every `assign_handle` of the sequence is applied to an object
that is a member at that moment (checked up to the first failing call). -/
def assignsToMembers (w : World) : List Op → Bool
  | [] => true
  | op :: ops =>
    (match op with
      | .assign_handle obj => w.registry._all_objects.contains obj
      | _ => true) &&
    (match step w op with
      | .returned w1 => assignsToMembers w1 ops
      | .assert_failed _ => true)

/-- Where an object is in its life cycle. -/
inductive Phase where
  | fresh
  | registered
  | assigned
  | removed
  deriving DecidableEq, Repr

/-- Whether a sequence of calls respects the life cycle: an object is
registered once, then assigned a handle at most once, then removed once. -/
def lifecycle (ph : ObjPtr → Phase) : List Op → Bool
  | [] => true
  | .register obj :: ops =>
    decide (ph obj = .fresh) &&
      lifecycle (fun o => if o = obj then .registered else ph o) ops
  | .assign_handle obj :: ops =>
    decide (ph obj = .registered) &&
      lifecycle (fun o => if o = obj then .assigned else ph o) ops
  | .remove obj :: ops =>
    decide (ph obj = .registered ∨ ph obj = .assigned) &&
      lifecycle (fun o => if o = obj then .removed else ph o) ops
  | .clear :: _ => false

/-- A sequence of calls that respects the life cycle of objects that are all
fresh at the start. -/
def lifecycleRespecting (ops : List Op) : Bool := lifecycle (fun _ => .fresh) ops

/-! ## Invariants -/

/-- The allocator cannot issue zero: its counter is positive and zero is not
in the pool. -/
def id_generator.zeroFree (g : id_generator) : Prop :=
  0 < g.nextId ∧ ∀ p ∈ g.freeIds, p ≠ HandleNull

/-- Zero is not a key of the handle map and cannot become one. -/
def NoNullKey (w : World) : Prop :=
  w.registry._idGen.zeroFree ∧ w.registry._map.find HandleNull = none

/-- Every entry of the handle map points to a member that carries the key as
its handle. -/
def NoDangling (w : World) : Prop :=
  ∀ h x, w.registry._map.find h = some x →
    x ∈ w.registry._all_objects.elems ∧ w._id x = h

/-- Relative to the handles `base` that the objects carried at some earlier
moment: an object's handle is the earlier one unless that was null, and handle
`h` is held in the map only by an object whose handle was null then and is
`h` now. -/
def IssuedSince (base : ObjPtr → Handle) (h : Handle) (w : World) : Prop :=
  (∀ x, w._id x = base x ∨ base x = HandleNull) ∧
  ∀ x, w.registry._map.find h = some x → base x = HandleNull ∧ w._id x = h

/-- The allocator agrees with the handle map: the counter is positive, the
pool holds each released handle once, every handle of the pool is non-null,
below the counter and not a key of the map, and every key of the map is
non-null and below the counter. -/
def Consistent (w : World) : Prop :=
  0 < w.registry._idGen.nextId ∧
  (∀ p ∈ w.registry._idGen.freeIds,
    p ≠ HandleNull ∧ p < w.registry._idGen.nextId ∧ p ∉ w.registry._map.keys) ∧
  w.registry._idGen.freeIds.Nodup ∧
  ∀ k ∈ w.registry._map.keys, k ≠ HandleNull ∧ k < w.registry._idGen.nextId

instance (w : World) : Decidable (Consistent w) := by
  unfold Consistent
  infer_instance

/-- The state of the directory in terms of the life-cycle phases of the
objects: the members are the registered and the assigned objects, an object
that was never assigned a handle carries none, and the handle map holds
exactly the assigned objects under their handles. -/
def LifecycleInv (ph : ObjPtr → Phase) (w : World) : Prop :=
  Consistent w ∧
  (∀ o, o ∈ w.registry._all_objects.elems ↔ ph o = .registered ∨ ph o = .assigned) ∧
  (∀ o, ph o = .fresh ∨ ph o = .registered → w._id o = HandleNull) ∧
  ∀ h o, w.registry._map.find h = some o ↔ ph o = .assigned ∧ w._id o = h

/-! ## Sample worlds -/

/-- The world after handing a handle to an object that was never registered. -/
def orphanWorld : World :=
  (registerNewObjectId World.empty 7).world

/-- Two members, the first with handle one. -/
def sampleWorld : World :=
  (run World.empty [.register 7, .assign_handle 7, .register 8]).getD World.empty

/-- A world in which handle one went from a removed object to a new one. -/
def reissuedWorld : World :=
  (run World.empty
    [.register 7, .assign_handle 7, .remove 7, .register 8, .assign_handle 8]).getD World.empty

/-- A world in which object 7 was removed and registered again before handle
one was issued to object 8: both are members and both carry handle one. -/
def sharedHandleWorld : World :=
  (run World.empty
    [.register 7, .assign_handle 7, .remove 7, .register 7, .register 8,
      .assign_handle 8]).getD World.empty

/-- A world in which object 7 was removed twice, so that handle one entered
the pool twice; it was then issued to object 8 and is still in the pool, and
object 9 is a member without a handle. -/
def doubleReleaseWorld : World :=
  (run World.empty
    [.register 7, .assign_handle 7, .remove 7, .register 7, .remove 7, .register 8,
      .assign_handle 8, .register 9]).getD World.empty

/-! ## Serialization -/

/-- The type `registry_container_old` of `load`, a `std::map`: the pairs in
ascending order of their keys. -/
structure registry_container_old where
  entries : List (HandleT × ObjPtr)
  sorted : (entries.map Prod.fst).Pairwise (fun a b => a < b)

/-- The empty ordered map. -/
def registry_container_old.empty : registry_container_old := ⟨[], List.Pairwise.nil⟩

/-- What the reads of `load` yield on an archive, and what `save` writes to
one. The objects of an archive are decoded together with their own fields,
of which `load` uses the handle and the public flag.

* `objects` is the set that `ar >> _all_objects` yields, which replaces the
  set read into.
* `oldCnt` is the ordered map that `ar >> oldCnt` yields.
* `idGen` is the allocator state that `ar >> _idGen` yields.
* `ids` is the field `_id` of each decoded object.
* `is_public` is the result of `is_public()` for each decoded object; the
  method is declared outside `object_registry.h` and is kept as a parameter. -/
structure Archive where
  objects : all_objects_set
  oldCnt : registry_container_old
  idGen : id_generator
  ids : ObjPtr → Handle
  is_public : ObjPtr → Bool

/-- The method `save(ar, version)`: `none` when the assertion on the version
fails, otherwise the archive written. The public flag of the objects is a
parameter; an ordered map is not written. -/
def save (w : World) (is_public : ObjPtr → Bool) (version : Nat) : Option Archive :=
  if version = 1 then
    some
      { objects := w.registry._all_objects
        oldCnt := registry_container_old.empty
        idGen := w.registry._idGen
        ids := w._id
        is_public := is_public }
  else none

/-- The loop of `load` for version 1: every public object of the list is
inserted into the map under its handle. -/
def insertPublic (uid : ObjPtr → HandleT) (is_public : ObjPtr → Bool)
    (m : registry_container) : List ObjPtr → registry_container
  | [] => m
  | obj :: rest =>
    insertPublic uid is_public (if is_public obj then m.insert (uid obj) obj else m) rest

/-- The call `_map.insert(oldCnt.begin(), oldCnt.end())` of `load`. -/
def insertRange (m : registry_container) : List (HandleT × ObjPtr) → registry_container
  | [] => m
  | e :: rest => insertRange (m.insert e.1 e.2) rest

/-- The call `std::transform` of `load`, which inserts the object of every
pair into the set. -/
def insertSeconds (s : all_objects_set) : List (HandleT × ObjPtr) → all_objects_set
  | [] => s
  | e :: rest => insertSeconds (s.insert e.2) rest

/-- The method `load(ar, version)`. The switch on the version is written as
a chain of tests: case 1, case 0, default. The objects that the reads decode
carry the handles of the archive. -/
def load (w : World) (ar : Archive) (version : Nat) : Outcome :=
  if version = 1 then
    let w1 : World :=
      { registry := { w.registry with _all_objects := ar.objects, _idGen := ar.idGen }
        _id := fun o => if o ∈ ar.objects.elems then ar.ids o else w._id o }
    .returned { w1 with registry := { w1.registry with
      _map := insertPublic w1._uid ar.is_public w1.registry._map
        w1.registry._all_objects.elems } }
  else if version = 0 then
    let w1 : World :=
      { registry := { w.registry with _idGen := ar.idGen }
        _id := fun o => if o ∈ ar.oldCnt.entries.map Prod.snd then ar.ids o else w._id o }
    .returned { w1 with registry := { w1.registry with
      _map := insertRange w1.registry._map ar.oldCnt.entries
      _all_objects := insertSeconds w1.registry._all_objects ar.oldCnt.entries } }
  else .assert_failed w

/-- The phases of the objects after a sequence of calls. -/
def phaseAfter (ph : ObjPtr → Phase) : List Op → ObjPtr → Phase
  | [] => ph
  | .register obj :: ops => phaseAfter (fun o => if o = obj then .registered else ph o) ops
  | .assign_handle obj :: ops => phaseAfter (fun o => if o = obj then .assigned else ph o) ops
  | .remove obj :: ops => phaseAfter (fun o => if o = obj then .removed else ph o) ops
  | .clear :: ops => phaseAfter ph ops

/-! ## The snapshot guard -/

/-- Modelled from the spec: the mutex `_mutex` of an object is declared
outside `object_registry.h`; by the spec every object has its own lock. The
state of the locks gives for every object the number of `lock()` calls on its
mutex that no `unlock()` call has answered yet. -/
abbrev LockState := ObjPtr → Nat

/-- The call `obj->_mutex.lock()`. -/
def lockMutex (locks : LockState) (obj : ObjPtr) : LockState :=
  fun o => if o = obj then locks o + 1 else locks o

/-- The call `obj->_mutex.unlock()`. -/
def unlockMutex (locks : LockState) (obj : ObjPtr) : LockState :=
  fun o => if o = obj then locks o - 1 else locks o

/-- A loop that locks the objects of a list in order. -/
def lockAll (locks : LockState) : List ObjPtr → LockState
  | [] => locks
  | obj :: rest => lockAll (lockMutex locks obj) rest

/-- A loop that unlocks the objects of a list in order. -/
def unlockAll (locks : LockState) : List ObjPtr → LockState
  | [] => locks
  | obj :: rest => unlockAll (unlockMutex locks obj) rest

/-- The constructor of `all_objects_lock`: it locks every object of
`registry.u_container()`. -/
def all_objects_lock.construct (w : World) (locks : LockState) : LockState :=
  lockAll locks w.registry._all_objects.elems

/-- The destructor of `all_objects_lock`: it unlocks every object of
`_registry.u_container()`, the container as it is at that moment. -/
def all_objects_lock.destroy (w : World) (locks : LockState) : LockState :=
  unlockAll locks w.registry._all_objects.elems

/-! ## Public flags and sample archives -/

/-- The public flag under which the public objects are the objects that
carry a handle. -/
def carriesHandle (ids : ObjPtr → Handle) : ObjPtr → Bool :=
  fun o => decide (ids o ≠ HandleNull)

/-- The ordered map with the pairs `(1, 10)` and `(2, 20)`. -/
def sampleOldCnt : registry_container_old :=
  ⟨[(1, 10), (2, 20)], by decide⟩

/-- An archive of version 0 with the ordered map `sampleOldCnt`. -/
def sampleArchive0 : Archive :=
  { objects := all_objects_set.empty
    oldCnt := sampleOldCnt
    idGen := ⟨3, []⟩
    ids := fun o => if o = 10 then 1 else if o = 20 then 2 else HandleNull
    is_public := fun _ => true }

/-- An archive of version 1 whose only object is public and carries handle
one. -/
def clashArchive : Archive :=
  { objects := all_objects_set.empty.insert 9
    oldCnt := registry_container_old.empty
    idGen := ⟨2, []⟩
    ids := fun _ => 1
    is_public := fun _ => true }

/-- A world in which object 7 was removed and then registered again: it is a
member and still carries handle one, which is in the pool of the allocator. -/
def staleWorld : World :=
  (run World.empty
    [.register 7, .assign_handle 7, .remove 7, .register 7]).getD World.empty

/-! ## Facts about the containers -/

theorem lookupEntry_eq_none_iff (k : HandleT) (l : List (HandleT × ObjPtr)) :
    lookupEntry k l = none ↔ k ∉ l.map Prod.fst := by
  induction l with
  | nil => simp [lookupEntry]
  | cons e rest ih =>
    by_cases h : e.1 = k
    · simp [lookupEntry, h]
    · have h2 : ¬ k = e.1 := fun h3 => h h3.symm
      simp only [lookupEntry, h, if_false, ih, List.map_cons, List.mem_cons, not_or]
      exact ⟨fun h3 => ⟨h2, h3⟩, fun h3 => h3.2⟩

theorem lookupEntry_filter_self (k : HandleT) (l : List (HandleT × ObjPtr)) :
    lookupEntry k (l.filter (fun e => decide (e.1 ≠ k))) = none := by
  rw [lookupEntry_eq_none_iff]
  simp [List.mem_filter]

theorem lookupEntry_filter_of_ne {k k2 : HandleT} (hne : k2 ≠ k) (l : List (HandleT × ObjPtr)) :
    lookupEntry k2 (l.filter (fun e => decide (e.1 ≠ k))) = lookupEntry k2 l := by
  induction l with
  | nil => rfl
  | cons e rest ih =>
    rw [List.filter_cons]
    by_cases h : e.1 = k
    · have h2 : ¬ e.1 = k2 := fun h3 => hne (h3.symm.trans h)
      have h3 : ¬ (decide (e.1 ≠ k) = true) := by simp [h]
      rw [if_neg h3, ih]
      show lookupEntry k2 rest = if e.1 = k2 then some e.2 else lookupEntry k2 rest
      rw [if_neg h2]
    · have h3 : decide (e.1 ≠ k) = true := by simp [h]
      rw [if_pos h3]
      show (if e.1 = k2 then some e.2 else lookupEntry k2 _) =
        if e.1 = k2 then some e.2 else lookupEntry k2 rest
      rw [ih]

namespace registry_container

theorem find_empty (k : HandleT) : empty.find k = none := rfl

theorem find_eq_none_iff (m : registry_container) (k : HandleT) :
    m.find k = none ↔ k ∉ m.keys :=
  lookupEntry_eq_none_iff k m.entries

theorem find_insert_self (m : registry_container) (k : HandleT) (v : ObjPtr)
    (h : m.find k = none) : (m.insert k v).find k = some v := by
  have hk : k ∉ m.entries.map Prod.fst := (find_eq_none_iff m k).mp h
  simp [insert, hk, find, lookupEntry]

theorem find_insert_of_ne (m : registry_container) {k k2 : HandleT} (v : ObjPtr)
    (hne : k2 ≠ k) : (m.insert k v).find k2 = m.find k2 := by
  unfold insert
  split
  · rfl
  · have h2 : ¬ k = k2 := fun h3 => hne h3.symm
    simp [find, lookupEntry, h2]

theorem find_erase_self (m : registry_container) (k : HandleT) :
    (m.erase k).find k = none :=
  lookupEntry_filter_self k m.entries

theorem find_erase_of_ne (m : registry_container) {k k2 : HandleT} (hne : k2 ≠ k) :
    (m.erase k).find k2 = m.find k2 :=
  lookupEntry_filter_of_ne hne m.entries

end registry_container

namespace all_objects_set

theorem contains_iff (s : all_objects_set) (obj : ObjPtr) :
    s.contains obj = true ↔ obj ∈ s.elems := by
  simp [contains]

theorem mem_insert (s : all_objects_set) (obj x : ObjPtr) :
    x ∈ (s.insert obj).elems ↔ x = obj ∨ x ∈ s.elems := by
  unfold insert
  split
  · constructor
    · exact Or.inr
    · rintro (h | h)
      · subst h; assumption
      · exact h
  · simp

theorem mem_erase (s : all_objects_set) (obj x : ObjPtr) :
    x ∈ (s.erase obj).elems ↔ x ≠ obj ∧ x ∈ s.elems :=
  s.nodup.mem_erase_iff

end all_objects_set

/-! ## What each operation does -/

theorem registerNewObject_of_mem {w : World} {obj : ObjPtr}
    (h : obj ∈ w.registry._all_objects.elems) :
    registerNewObject w obj = .assert_failed w := by
  simp [registerNewObject, all_objects_set.contains, h]

theorem registerNewObject_of_not_mem {w : World} {obj : ObjPtr}
    (h : obj ∉ w.registry._all_objects.elems) :
    registerNewObject w obj = .returned { w with registry :=
      { w.registry with _all_objects := w.registry._all_objects.insert obj } } := by
  simp [registerNewObject, all_objects_set.contains, h]

theorem registerNewObject_inv {w w1 : World} {obj : ObjPtr}
    (h : registerNewObject w obj = .returned w1) :
    obj ∉ w.registry._all_objects.elems ∧
    w1 = { w with registry :=
      { w.registry with _all_objects := w.registry._all_objects.insert obj } } := by
  by_cases hm : obj ∈ w.registry._all_objects.elems
  · rw [registerNewObject_of_mem hm] at h
    cases h
  · rw [registerNewObject_of_not_mem hm] at h
    exact ⟨hm, (Outcome.returned.inj h).symm⟩

theorem registerNewObjectId_of_handle {w : World} {obj : ObjPtr}
    (h : w._id obj ≠ HandleNull) :
    registerNewObjectId w obj = .assert_failed w := by
  simp [registerNewObjectId, World._uid, h]

theorem registerNewObjectId_of_fresh {w : World} {obj : ObjPtr}
    (h0 : w._id obj = HandleNull)
    (hf : w.registry._map.find w.registry._idGen.newId.1 = none) :
    registerNewObjectId w obj = .returned
      { registry :=
          { _map := w.registry._map.insert w.registry._idGen.newId.1 obj
            _idGen := w.registry._idGen.newId.2
            _all_objects := w.registry._all_objects }
        _id := fun o => if o = obj then w.registry._idGen.newId.1 else w._id o } := by
  simp [registerNewObjectId, World._uid, h0, hf, World.setId]

theorem registerNewObjectId_of_used {w : World} {obj : ObjPtr}
    (h0 : w._id obj = HandleNull)
    (hf : w.registry._map.find w.registry._idGen.newId.1 ≠ none) :
    registerNewObjectId w obj = .assert_failed
      { w with registry := { w.registry with _idGen := w.registry._idGen.newId.2 } } := by
  have h1 : (w.registry._map.find w.registry._idGen.newId.1).isSome = true :=
    Option.isSome_iff_ne_none.mpr hf
  simp [registerNewObjectId, World._uid, h0, h1]

theorem registerNewObjectId_inv {w w1 : World} {obj : ObjPtr}
    (h : registerNewObjectId w obj = .returned w1) :
    w._id obj = HandleNull ∧
    w.registry._map.find w.registry._idGen.newId.1 = none ∧
    w1 = { registry :=
            { _map := w.registry._map.insert w.registry._idGen.newId.1 obj
              _idGen := w.registry._idGen.newId.2
              _all_objects := w.registry._all_objects }
           _id := fun o => if o = obj then w.registry._idGen.newId.1 else w._id o } := by
  by_cases h0 : w._id obj = HandleNull
  · by_cases hf : w.registry._map.find w.registry._idGen.newId.1 = none
    · rw [registerNewObjectId_of_fresh h0 hf] at h
      exact ⟨h0, hf, (Outcome.returned.inj h).symm⟩
    · rw [registerNewObjectId_of_used h0 hf] at h
      cases h
  · rw [registerNewObjectId_of_handle h0] at h
    cases h

theorem removeObject_of_mem {w : World} {obj : ObjPtr}
    (h : obj ∈ w.registry._all_objects.elems) :
    removeObject w obj = .returned
      { registry :=
          { _map := (if w._id obj ≠ HandleNull then w.registry._map.erase (w._id obj)
              else w.registry._map)
            _idGen := (if w._id obj ≠ HandleNull then w.registry._idGen.reuseId (w._id obj)
              else w.registry._idGen)
            _all_objects := w.registry._all_objects.erase obj }
        _id := w._id } := by
  by_cases h0 : w._id obj = HandleNull
  · simp [removeObject, World._uid, h0, all_objects_set.contains, h]
  · simp [removeObject, World._uid, h0, all_objects_set.contains, h]

theorem removeObject_of_not_mem {w : World} {obj : ObjPtr}
    (h : obj ∉ w.registry._all_objects.elems) :
    removeObject w obj = .assert_failed
      { registry :=
          { _map := (if w._id obj ≠ HandleNull then w.registry._map.erase (w._id obj)
              else w.registry._map)
            _idGen := (if w._id obj ≠ HandleNull then w.registry._idGen.reuseId (w._id obj)
              else w.registry._idGen)
            _all_objects := w.registry._all_objects }
        _id := w._id } := by
  by_cases h0 : w._id obj = HandleNull
  · simp [removeObject, World._uid, h0, all_objects_set.contains, h]
  · simp [removeObject, World._uid, h0, all_objects_set.contains, h]

theorem removeObject_inv {w w1 : World} {obj : ObjPtr}
    (h : removeObject w obj = .returned w1) :
    obj ∈ w.registry._all_objects.elems ∧
    w1 =
      { registry :=
          { _map := (if w._id obj ≠ HandleNull then w.registry._map.erase (w._id obj)
              else w.registry._map)
            _idGen := (if w._id obj ≠ HandleNull then w.registry._idGen.reuseId (w._id obj)
              else w.registry._idGen)
            _all_objects := w.registry._all_objects.erase obj }
        _id := w._id } := by
  by_cases hm : obj ∈ w.registry._all_objects.elems
  · rw [removeObject_of_mem hm] at h
    exact ⟨hm, (Outcome.returned.inj h).symm⟩
  · rw [removeObject_of_not_mem hm] at h
    cases h

theorem getObject_eq (w : World) (hdl : Handle) :
    getObject w hdl = if hdl = 0 then none else w.registry._map.find hdl := by
  unfold getObject u_getObject
  by_cases h : hdl = 0
  · simp [h]
  · simp only [h, if_false]
    cases w.registry._map.find hdl <;> rfl

theorem getObject_of_ne_null (w : World) {hdl : Handle} (h0 : hdl ≠ HandleNull) :
    getObject w hdl = w.registry._map.find hdl := by
  rw [getObject_eq]
  exact if_neg h0

theorem getObjectRef_eq (w : World) (hdl : Handle) :
    getObjectRef w hdl = getObject w hdl := rfl

theorem u_getObject_eq (w : World) (hdl : Handle) :
    u_getObject w hdl = getObject w hdl := by
  unfold getObject
  by_cases h : hdl = 0
  · simp [h, u_getObject]
  · simp [h]

/-! ## Invariants of all sequences of calls -/

theorem filter_objects_true (w : World) :
    filter_objects w (fun _ => true) = w.registry._all_objects.elems := by
  unfold filter_objects
  exact List.filter_true _

theorem registry_container.find_erase_some (m : registry_container) {k h : HandleT}
    {x : ObjPtr} (hf : (m.erase k).find h = some x) : h ≠ k ∧ m.find h = some x := by
  by_cases hk : h = k
  · subst hk
    rw [find_erase_self] at hf
    cases hf
  · rw [find_erase_of_ne _ hk] at hf
    exact ⟨hk, hf⟩

theorem registry_container.eq_of_mem_entries (m : registry_container) {h : HandleT}
    {x y : ObjPtr} (hx : (h, x) ∈ m.entries) (hy : (h, y) ∈ m.entries) : x = y := by
  obtain ⟨entries, nd⟩ := m
  simp only at hx hy
  induction entries with
  | nil => cases hx
  | cons e rest ih =>
    rw [List.map_cons, List.nodup_cons] at nd
    rcases List.mem_cons.mp hx with hx1 | hx1 <;> rcases List.mem_cons.mp hy with hy1 | hy1
    · rw [← hx1] at hy1
      exact (Prod.mk.inj hy1).2.symm
    · exact absurd (List.mem_map.mpr ⟨(h, y), hy1, by rw [← hx1]⟩) nd.1
    · exact absurd (List.mem_map.mpr ⟨(h, x), hx1, by rw [← hy1]⟩) nd.1
    · exact ih nd.2 hx1 hy1

namespace id_generator

theorem zeroFree_init : init.zeroFree :=
  ⟨Nat.one_pos, fun _ hp => absurd hp (List.not_mem_nil _)⟩

theorem newId_ne_zero {g : id_generator} (hg : g.zeroFree) : g.newId.1 ≠ HandleNull := by
  obtain ⟨n, pool⟩ := g
  cases pool with
  | nil => exact Nat.pos_iff_ne_zero.mp hg.1
  | cons p rest => exact hg.2 p (List.mem_cons_self _ _)

theorem zeroFree_newId {g : id_generator} (hg : g.zeroFree) : g.newId.2.zeroFree := by
  obtain ⟨n, pool⟩ := g
  cases pool with
  | nil => exact ⟨Nat.succ_pos _, hg.2⟩
  | cons p rest => exact ⟨hg.1, fun q hq => hg.2 q (List.mem_cons_of_mem _ hq)⟩

theorem zeroFree_reuseId {g : id_generator} (hg : g.zeroFree) {id : HandleT}
    (h : id ≠ HandleNull) :
    (g.reuseId id).zeroFree := by
  refine ⟨hg.1, fun q hq => ?_⟩
  rcases List.mem_cons.mp hq with rfl | hq
  · exact h
  · exact hg.2 q hq

end id_generator

theorem noNullKey_init (ids : ObjPtr → Handle) :
    NoNullKey { registry := object_registry.empty, _id := ids } :=
  ⟨id_generator.zeroFree_init, rfl⟩

theorem noNullKey_step {w w1 : World} {op : Op} (hs : step w op = .returned w1)
    (hw : NoNullKey w) : NoNullKey w1 := by
  cases op with
  | register obj =>
    obtain ⟨_, rfl⟩ := registerNewObject_inv hs
    exact hw
  | assign_handle obj =>
    obtain ⟨_, _, rfl⟩ := registerNewObjectId_inv hs
    refine ⟨id_generator.zeroFree_newId hw.1, ?_⟩
    show (w.registry._map.insert _ obj).find HandleNull = none
    rw [registry_container.find_insert_of_ne _ _ (Ne.symm (id_generator.newId_ne_zero hw.1))]
    exact hw.2
  | remove obj =>
    obtain ⟨_, rfl⟩ := removeObject_inv hs
    by_cases h0 : w._id obj = HandleNull
    · simp only [NoNullKey, h0, ne_eq, not_true_eq_false, if_false]
      exact hw
    · simp only [NoNullKey, h0, ne_eq, not_false_eq_true, if_true]
      refine ⟨id_generator.zeroFree_reuseId hw.1 h0, ?_⟩
      rw [registry_container.find_erase_of_ne _ (Ne.symm h0)]
      exact hw.2
  | clear =>
    cases hs
    exact noNullKey_init w._id

theorem noNullKey_run (ops : List Op) : ∀ (w w1 : World), NoNullKey w →
    run w ops = some w1 → NoNullKey w1 := by
  induction ops with
  | nil =>
    intro w w1 hw hr
    cases hr
    exact hw
  | cons op ops ih =>
    intro w w1 hw hr
    unfold run at hr
    cases hs : step w op with
    | returned w2 =>
      rw [hs] at hr
      exact ih w2 w1 (noNullKey_step hs hw) hr
    | assert_failed w2 =>
      rw [hs] at hr
      cases hr

theorem noDangling_step {w w1 : World} {op : Op} (hs : step w op = .returned w1)
    (hg : ∀ obj, op = .assign_handle obj → obj ∈ w.registry._all_objects.elems)
    (hn : NoNullKey w) (hw : NoDangling w) : NoDangling w1 := by
  cases op with
  | register obj =>
    obtain ⟨_, rfl⟩ := registerNewObject_inv hs
    intro h x hf
    obtain ⟨hm, hid⟩ := hw h x hf
    exact ⟨(all_objects_set.mem_insert _ _ _).mpr (Or.inr hm), hid⟩
  | assign_handle obj =>
    obtain ⟨h0, hfresh, rfl⟩ := registerNewObjectId_inv hs
    intro h x hf
    change (w.registry._map.insert _ obj).find h = some x at hf
    show x ∈ w.registry._all_objects.elems ∧
      (if x = obj then w.registry._idGen.newId.1 else w._id x) = h
    by_cases hh : h = w.registry._idGen.newId.1
    · subst hh
      rw [registry_container.find_insert_self _ _ _ hfresh] at hf
      cases hf
      exact ⟨hg _ rfl, if_pos rfl⟩
    · rw [registry_container.find_insert_of_ne _ _ hh] at hf
      obtain ⟨hm, hid⟩ := hw h x hf
      refine ⟨hm, ?_⟩
      have hx : x ≠ obj := by
        rintro rfl
        rw [h0] at hid
        rw [← hid] at hf
        rw [hn.2] at hf
        cases hf
      rw [if_neg hx]
      exact hid
  | remove obj =>
    obtain ⟨_, rfl⟩ := removeObject_inv hs
    intro h x hf
    show x ∈ (w.registry._all_objects.erase obj).elems ∧ w._id x = h
    rw [all_objects_set.mem_erase]
    by_cases h0 : w._id obj = HandleNull
    · simp only [h0, ne_eq, not_true_eq_false, if_false] at hf
      obtain ⟨hm, hid⟩ := hw h x hf
      refine ⟨⟨?_, hm⟩, hid⟩
      rintro rfl
      rw [h0] at hid
      rw [← hid] at hf
      rw [hn.2] at hf
      cases hf
    · simp only [h0, ne_eq, not_false_eq_true, if_true] at hf
      obtain ⟨hne, hf2⟩ := registry_container.find_erase_some _ hf
      obtain ⟨hm, hid⟩ := hw h x hf2
      refine ⟨⟨?_, hm⟩, hid⟩
      rintro rfl
      exact hne hid.symm
  | clear =>
    cases hs
    intro h x hf
    cases hf

theorem noDangling_run (ops : List Op) : ∀ (w w1 : World), NoNullKey w → NoDangling w →
    assignsToMembers w ops = true → run w ops = some w1 → NoDangling w1 := by
  induction ops with
  | nil =>
    intro w w1 _ hw _ hr
    cases hr
    exact hw
  | cons op ops ih =>
    intro w w1 hn hw hg hr
    unfold run at hr
    unfold assignsToMembers at hg
    cases hs : step w op with
    | returned w2 =>
      rw [hs] at hr hg
      rw [Bool.and_eq_true] at hg
      refine ih w2 w1 (noNullKey_step hs hn) (noDangling_step hs ?_ hn hw) hg.2 hr
      intro obj hop
      subst hop
      exact (all_objects_set.contains_iff _ _).mp hg.1
    | assert_failed w2 =>
      rw [hs] at hr
      cases hr

theorem issuedSince_step {base : ObjPtr → Handle} {h : Handle} (h0 : h ≠ HandleNull)
    {w w1 : World} {op : Op} (hs : step w op = .returned w1)
    (hw : IssuedSince base h w) : IssuedSince base h w1 := by
  cases op with
  | register obj =>
    obtain ⟨_, rfl⟩ := registerNewObject_inv hs
    exact hw
  | assign_handle obj =>
    obtain ⟨hnull, hfresh, rfl⟩ := registerNewObjectId_inv hs
    have hbase : base obj = HandleNull := by
      rcases hw.1 obj with hb | hb
      · rw [← hb]
        exact hnull
      · exact hb
    constructor
    · intro x
      show (if x = obj then w.registry._idGen.newId.1 else w._id x) = base x ∨ _
      by_cases hx : x = obj
      · subst hx
        exact Or.inr hbase
      · rw [if_neg hx]
        exact hw.1 x
    · intro x hf
      change (w.registry._map.insert _ obj).find h = some x at hf
      show base x = HandleNull ∧
        (if x = obj then w.registry._idGen.newId.1 else w._id x) = h
      by_cases hh : h = w.registry._idGen.newId.1
      · rw [hh, registry_container.find_insert_self _ _ _ hfresh] at hf
        cases hf
        exact ⟨hbase, by rw [if_pos rfl, hh]⟩
      · rw [registry_container.find_insert_of_ne _ _ hh] at hf
        obtain ⟨hb, hid⟩ := hw.2 x hf
        refine ⟨hb, ?_⟩
        have hx : x ≠ obj := by
          rintro rfl
          rw [hnull] at hid
          exact h0 hid.symm
        rw [if_neg hx]
        exact hid
  | remove obj =>
    obtain ⟨_, rfl⟩ := removeObject_inv hs
    refine ⟨hw.1, fun x hf => ?_⟩
    by_cases hnull : w._id obj = HandleNull
    · simp only [hnull, ne_eq, not_true_eq_false, if_false] at hf
      exact hw.2 x hf
    · simp only [hnull, ne_eq, not_false_eq_true, if_true] at hf
      exact hw.2 x (registry_container.find_erase_some _ hf).2
  | clear =>
    cases hs
    exact ⟨hw.1, fun x hf => by cases hf⟩

theorem issuedSince_run {base : ObjPtr → Handle} {h : Handle} (h0 : h ≠ HandleNull)
    (ops : List Op) : ∀ (w w1 : World), IssuedSince base h w →
    run w ops = some w1 → IssuedSince base h w1 := by
  induction ops with
  | nil =>
    intro w w1 hw hr
    cases hr
    exact hw
  | cons op ops ih =>
    intro w w1 hw hr
    unfold run at hr
    cases hs : step w op with
    | returned w2 =>
      rw [hs] at hr
      exact ih w2 w1 (issuedSince_step h0 hs hw) hr
    | assert_failed w2 =>
      rw [hs] at hr
      cases hr

end collections

namespace collections

theorem run_append_one {ops : List Op} {op : Op} : ∀ {w w2 w3 : World},
    run w ops = some w2 → step w2 op = .returned w3 → run w (ops ++ [op]) = some w3 := by
  induction ops with
  | nil =>
    intro w w2 w3 hr hs
    cases hr
    show (match step w op with
      | .returned w1 => run w1 []
      | .assert_failed _ => none) = some w3
    rw [hs]
    rfl
  | cons o ops ih =>
    intro w w2 w3 hr hs
    rw [List.cons_append]
    unfold run at hr ⊢
    cases hso : step w o with
    | returned w4 =>
      rw [hso] at hr
      exact ih hr hs
    | assert_failed w4 =>
      rw [hso] at hr
      cases hr

/-! ## The allocator and the handle map -/

namespace registry_container

theorem mem_keys_iff (m : registry_container) (k : HandleT) :
    k ∈ m.keys ↔ m.find k ≠ none := by
  rw [Ne, find_eq_none_iff, not_not]

theorem mem_keys_insert (m : registry_container) {id : HandleT} (v : ObjPtr)
    (hfresh : m.find id = none) (k : HandleT) :
    k ∈ (m.insert id v).keys ↔ k = id ∨ k ∈ m.keys := by
  rw [mem_keys_iff, mem_keys_iff]
  by_cases hk : k = id
  · subst hk
    rw [find_insert_self _ _ _ hfresh]
    simp
  · rw [find_insert_of_ne _ _ hk]
    simp [hk]

theorem mem_keys_erase (m : registry_container) (id k : HandleT) :
    k ∈ (m.erase id).keys ↔ k ≠ id ∧ k ∈ m.keys := by
  rw [mem_keys_iff, mem_keys_iff]
  by_cases hk : k = id
  · subst hk
    rw [find_erase_self]
    simp
  · rw [find_erase_of_ne _ hk]
    simp [hk]

end registry_container

theorem consistent_newId_fresh {w : World} (hc : Consistent w) :
    w.registry._idGen.newId.1 ≠ HandleNull ∧
    w.registry._map.find w.registry._idGen.newId.1 = none := by
  obtain ⟨hpos, hpool, _, hkeys⟩ := hc
  rw [registry_container.find_eq_none_iff]
  cases hp : w.registry._idGen.freeIds with
  | nil =>
    have hn : w.registry._idGen.newId.1 = w.registry._idGen.nextId := by
      simp [id_generator.newId, hp]
    rw [hn]
    exact ⟨Nat.pos_iff_ne_zero.mp hpos, fun hk => Nat.lt_irrefl _ (hkeys _ hk).2⟩
  | cons p rest =>
    have hn : w.registry._idGen.newId.1 = p := by
      simp [id_generator.newId, hp]
    rw [hn]
    have hp2 := hpool p (by rw [hp]; exact List.mem_cons_self _ _)
    exact ⟨hp2.1, hp2.2.2⟩

theorem consistent_assign {w : World} (hc : Consistent w) (obj : ObjPtr)
    (ids : ObjPtr → Handle) (members : all_objects_set) :
    Consistent
      { registry :=
          { _map := w.registry._map.insert w.registry._idGen.newId.1 obj
            _idGen := w.registry._idGen.newId.2
            _all_objects := members }
        _id := ids } := by
  have hfresh := (consistent_newId_fresh hc).2
  have hnz := (consistent_newId_fresh hc).1
  obtain ⟨hpos, hpool, hnd, hkeys⟩ := hc
  unfold Consistent
  simp only [registry_container.mem_keys_insert _ _ hfresh]
  cases hp : w.registry._idGen.freeIds with
  | nil =>
    have hn : w.registry._idGen.newId = (w.registry._idGen.nextId,
        { w.registry._idGen with nextId := w.registry._idGen.nextId + 1 }) := by
      simp [id_generator.newId, hp]
    rw [hn]
    simp only [hp]
    refine ⟨Nat.succ_pos _, fun p hpm => absurd hpm (List.not_mem_nil _), List.nodup_nil, ?_⟩
    rintro k (rfl | hk)
    · exact ⟨Nat.pos_iff_ne_zero.mp hpos, Nat.lt_succ_self _⟩
    · exact ⟨(hkeys k hk).1, Nat.lt_succ_of_lt (hkeys k hk).2⟩
  | cons p rest =>
    have hn : w.registry._idGen.newId = (p, { w.registry._idGen with freeIds := rest }) := by
      simp [id_generator.newId, hp]
    rw [hn]
    rw [hp] at hpool hnd
    have hp2 := hpool p (List.mem_cons_self _ _)
    rw [List.nodup_cons] at hnd
    refine ⟨hpos, fun q hq => ?_, hnd.2, ?_⟩
    · have hq2 := hpool q (List.mem_cons_of_mem _ hq)
      refine ⟨hq2.1, hq2.2.1, ?_⟩
      rintro (rfl | hk)
      · exact hnd.1 hq
      · exact hq2.2.2 hk
    · rintro k (rfl | hk)
      · exact ⟨hp2.1, hp2.2.1⟩
      · exact hkeys k hk

theorem consistent_release {w : World} (hc : Consistent w) {id : HandleT}
    (hk : id ∈ w.registry._map.keys)
    (ids : ObjPtr → Handle) (members : all_objects_set) :
    Consistent
      { registry :=
          { _map := w.registry._map.erase id
            _idGen := w.registry._idGen.reuseId id
            _all_objects := members }
        _id := ids } := by
  obtain ⟨hpos, hpool, hnd, hkeys⟩ := hc
  unfold Consistent
  simp only [registry_container.mem_keys_erase]
  refine ⟨hpos, fun q hq => ?_, ?_, fun k hk2 => hkeys k hk2.2⟩
  · rcases List.mem_cons.mp hq with rfl | hq2
    · exact ⟨(hkeys q hk).1, (hkeys q hk).2, fun h => h.1 rfl⟩
    · exact ⟨(hpool q hq2).1, (hpool q hq2).2.1, fun h => (hpool q hq2).2.2 h.2⟩
  · exact List.nodup_cons.mpr ⟨fun hin => (hpool id hin).2.2 hk, hnd⟩

theorem consistent_empty : Consistent World.empty := by decide

/-! ## Sequences that respect the life cycle -/

theorem lifecycleInv_empty : LifecycleInv (fun _ => .fresh) World.empty := by
  refine ⟨consistent_empty, fun o => ?_, fun _ _ => rfl, fun h o => ?_⟩
  · constructor
    · intro hm
      cases hm
    · rintro (h | h) <;> cases h
  · constructor
    · intro hf
      cases hf
    · intro hf
      cases hf.1

theorem lifecycleInv_register {ph : ObjPtr → Phase} {w : World} (obj : ObjPtr)
    (hinv : LifecycleInv ph w) (hph : ph obj = .fresh) :
    ∃ w1, registerNewObject w obj = .returned w1 ∧
      LifecycleInv (fun o => if o = obj then .registered else ph o) w1 := by
  obtain ⟨hc, hmem, hnull, hmap⟩ := hinv
  have hnm : obj ∉ w.registry._all_objects.elems := by
    intro hm
    rcases (hmem obj).mp hm with h | h <;> rw [hph] at h <;> cases h
  refine ⟨_, registerNewObject_of_not_mem hnm, hc, fun o => ?_, fun o ho => ?_, fun h o => ?_⟩
  · show o ∈ (w.registry._all_objects.insert obj).elems ↔ _
    rw [all_objects_set.mem_insert, hmem]
    by_cases ho : o = obj
    · simp [ho]
    · simp [ho]
  · by_cases hoo : o = obj
    · subst hoo
      exact hnull o (Or.inl hph)
    · simp only [hoo, if_false] at ho
      exact hnull o ho
  · show w.registry._map.find h = some o ↔ _
    rw [hmap]
    by_cases hoo : o = obj
    · subst hoo
      simp [hph]
    · simp [hoo]

theorem lifecycleInv_assign {ph : ObjPtr → Phase} {w : World} (obj : ObjPtr)
    (hinv : LifecycleInv ph w) (hph : ph obj = .registered) :
    ∃ w1, registerNewObjectId w obj = .returned w1 ∧
      LifecycleInv (fun o => if o = obj then .assigned else ph o) w1 := by
  obtain ⟨hc, hmem, hnull, hmap⟩ := hinv
  have h0 : w._id obj = HandleNull := hnull obj (Or.inr hph)
  obtain ⟨hnz, hfresh⟩ := consistent_newId_fresh hc
  refine ⟨_, registerNewObjectId_of_fresh h0 hfresh, consistent_assign hc obj _ _,
    fun o => ?_, fun o ho => ?_, fun h o => ?_⟩
  · show o ∈ w.registry._all_objects.elems ↔ _
    rw [hmem]
    by_cases hoo : o = obj
    · subst hoo
      simp [hph]
    · simp [hoo]
  · show (if o = obj then w.registry._idGen.newId.1 else w._id o) = HandleNull
    by_cases hoo : o = obj
    · subst hoo
      simp at ho
    · simp only [hoo, if_false] at ho ⊢
      exact hnull o ho
  · show (w.registry._map.insert w.registry._idGen.newId.1 obj).find h = some o ↔
      (if o = obj then Phase.assigned else ph o) = .assigned ∧
      (if o = obj then w.registry._idGen.newId.1 else w._id o) = h
    by_cases hh : h = w.registry._idGen.newId.1
    · subst hh
      rw [registry_container.find_insert_self _ _ _ hfresh]
      by_cases hoo : o = obj
      · subst hoo
        simp
      · have hne : ¬ obj = o := fun e => hoo e.symm
        simp only [hoo, if_false, Option.some.injEq, hne, false_iff, not_and]
        intro ha hid
        have hf : w.registry._map.find (w._id o) = some o := (hmap _ o).mpr ⟨ha, rfl⟩
        rw [hid, hfresh] at hf
        cases hf
    · rw [registry_container.find_insert_of_ne _ _ hh, hmap]
      by_cases hoo : o = obj
      · subst hoo
        have hh2 : ¬ w.registry._idGen.newId.1 = h := fun e => hh e.symm
        simp [hph, hh2]
      · simp [hoo]

theorem lifecycleInv_remove {ph : ObjPtr → Phase} {w : World} (obj : ObjPtr)
    (hinv : LifecycleInv ph w) (hph : ph obj = .registered ∨ ph obj = .assigned) :
    ∃ w1, removeObject w obj = .returned w1 ∧
      LifecycleInv (fun o => if o = obj then .removed else ph o) w1 := by
  obtain ⟨hc, hmem, hnull, hmap⟩ := hinv
  have hm : obj ∈ w.registry._all_objects.elems := (hmem obj).mpr hph
  have hmem1 : ∀ o, o ∈ (w.registry._all_objects.erase obj).elems ↔
      (if o = obj then Phase.removed else ph o) = .registered ∨
      (if o = obj then Phase.removed else ph o) = .assigned := by
    intro o
    rw [all_objects_set.mem_erase, hmem]
    by_cases hoo : o = obj
    · simp [hoo]
    · simp [hoo]
  have hnull1 : ∀ o, (if o = obj then Phase.removed else ph o) = .fresh ∨
      (if o = obj then Phase.removed else ph o) = .registered → w._id o = HandleNull := by
    intro o ho
    by_cases hoo : o = obj
    · simp [hoo] at ho
    · simp only [hoo, if_false] at ho
      exact hnull o ho
  refine ⟨_, removeObject_of_mem hm, ?_⟩
  by_cases h0 : w._id obj = HandleNull
  · have hna : ph obj ≠ .assigned := by
      intro ha
      have hf : w.registry._map.find (w._id obj) = some obj := (hmap _ obj).mpr ⟨ha, rfl⟩
      have hk : w._id obj ∈ w.registry._map.keys := by
        rw [registry_container.mem_keys_iff, hf]
        simp
      exact (hc.2.2.2 _ hk).1 h0
    simp only [h0, ne_eq, not_true_eq_false, if_false]
    refine ⟨hc, hmem1, hnull1, fun h o => ?_⟩
    show w.registry._map.find h = some o ↔ _
    rw [hmap]
    by_cases hoo : o = obj
    · subst hoo
      simp [hna]
    · simp [hoo]
  · have ha : ph obj = .assigned := by
      rcases hph with hr | ha
      · exact absurd (hnull obj (Or.inr hr)) h0
      · exact ha
    have hf : w.registry._map.find (w._id obj) = some obj := (hmap _ obj).mpr ⟨ha, rfl⟩
    have hk : w._id obj ∈ w.registry._map.keys := by
      rw [registry_container.mem_keys_iff, hf]
      simp
    simp only [h0, ne_eq, not_false_eq_true, if_true]
    refine ⟨consistent_release hc hk _ _, hmem1, hnull1, fun h o => ?_⟩
    show (w.registry._map.erase (w._id obj)).find h = some o ↔ _
    by_cases hh : h = w._id obj
    · subst hh
      rw [registry_container.find_erase_self]
      by_cases hoo : o = obj
      · simp [hoo]
      · simp only [hoo, if_false]
        refine ⟨fun hn => (by cases hn), fun hao => ?_⟩
        have hf2 : w.registry._map.find (w._id obj) = some o := (hmap _ o).mpr hao
        rw [hf] at hf2
        exact absurd (Option.some.inj hf2).symm hoo
    · rw [registry_container.find_erase_of_ne _ hh, hmap]
      by_cases hoo : o = obj
      · subst hoo
        have hh2 : ¬ w._id o = h := fun e => hh e.symm
        simp [hh2]
      · simp [hoo]

theorem lifecycleInv_run (ops : List Op) : ∀ (ph : ObjPtr → Phase) (w : World),
    LifecycleInv ph w → lifecycle ph ops = true →
    ∃ w1 ph1, run w ops = some w1 ∧ LifecycleInv ph1 w1 := by
  induction ops with
  | nil =>
    intro ph w hinv _
    exact ⟨w, ph, rfl, hinv⟩
  | cons op ops ih =>
    intro ph w hinv hl
    cases op with
    | register obj =>
      simp only [lifecycle, Bool.and_eq_true, decide_eq_true_eq] at hl
      obtain ⟨w1, hs, hinv1⟩ := lifecycleInv_register obj hinv hl.1
      obtain ⟨w2, ph2, hr, hinv2⟩ := ih _ w1 hinv1 hl.2
      refine ⟨w2, ph2, ?_, hinv2⟩
      unfold run
      show (match registerNewObject w obj with
        | .returned w1 => run w1 ops
        | .assert_failed _ => none) = some w2
      rw [hs]
      exact hr
    | assign_handle obj =>
      simp only [lifecycle, Bool.and_eq_true, decide_eq_true_eq] at hl
      obtain ⟨w1, hs, hinv1⟩ := lifecycleInv_assign obj hinv hl.1
      obtain ⟨w2, ph2, hr, hinv2⟩ := ih _ w1 hinv1 hl.2
      refine ⟨w2, ph2, ?_, hinv2⟩
      unfold run
      show (match registerNewObjectId w obj with
        | .returned w1 => run w1 ops
        | .assert_failed _ => none) = some w2
      rw [hs]
      exact hr
    | remove obj =>
      simp only [lifecycle, Bool.and_eq_true, decide_eq_true_eq] at hl
      obtain ⟨w1, hs, hinv1⟩ := lifecycleInv_remove obj hinv hl.1
      obtain ⟨w2, ph2, hr, hinv2⟩ := ih _ w1 hinv1 hl.2
      refine ⟨w2, ph2, ?_, hinv2⟩
      unfold run
      show (match removeObject w obj with
        | .returned w1 => run w1 ops
        | .assert_failed _ => none) = some w2
      rw [hs]
      exact hr
    | clear =>
      simp [lifecycle] at hl

theorem consistent_of_lifecycleRespecting (ops : List Op)
    (hl : lifecycleRespecting ops = true) :
    ∃ w, run World.empty ops = some w ∧ Consistent w := by
  obtain ⟨w, _, hr, hc, _⟩ :=
    lifecycleInv_run ops (fun _ => .fresh) World.empty lifecycleInv_empty hl
  exact ⟨w, hr, hc⟩

/-! ## The claims -/

theorem no_dangling_of_assignsToMembers (ids : ObjPtr → Handle) (ops : List Op) (w : World)
    (hg : assignsToMembers { registry := object_registry.empty, _id := ids } ops = true)
    (hr : run { registry := object_registry.empty, _id := ids } ops = some w) :
    ∀ h x, w.registry._map.find h = some x → x ∈ w.registry._all_objects.elems := by
  intro h x hf
  have hd : NoDangling w :=
    noDangling_run ops _ w (noNullKey_init ids) (fun _ _ hf => by cases hf) hg hr
  exact (hd h x hf).1

/-- C1, as stated, fails in both of its parts. A call of `registerNewObjectId`
for an object that was never registered passes both assertions and leaves a
handle-map entry whose object is not in the membership set. And when object 7
is removed and registered again, which no assertion rejects, it still carries
handle one while the allocator issues handle one to object 8: two members
share a handle, although every `registerNewObjectId` was called for a
member. -/
theorem lifecycle_violations_break_handle_map :
    (run World.empty [.assign_handle 7] = some orphanWorld ∧
      orphanWorld.registry._map.find 1 = some 7 ∧
      7 ∉ orphanWorld.registry._all_objects.elems) ∧
    (run World.empty [.register 7, .assign_handle 7, .remove 7, .register 7, .register 8,
        .assign_handle 8] = some sharedHandleWorld ∧
      assignsToMembers World.empty [.register 7, .assign_handle 7, .remove 7, .register 7,
        .register 8, .assign_handle 8] = true ∧
      7 ∈ sharedHandleWorld.registry._all_objects.elems ∧
      8 ∈ sharedHandleWorld.registry._all_objects.elems ∧
      sharedHandleWorld._id 7 = 1 ∧ sharedHandleWorld._id 8 = 1) ∧
    ¬ (∀ (ops : List Op) (w : World), run World.empty ops = some w →
        ∀ h x, w.registry._map.find h = some x → x ∈ w.registry._all_objects.elems) ∧
    ¬ (∀ (ops : List Op) (w : World), run World.empty ops = some w →
        ∀ x y, x ∈ w.registry._all_objects.elems → y ∈ w.registry._all_objects.elems →
          w._id x ≠ HandleNull → w._id x = w._id y → x = y) := by
  refine ⟨⟨rfl, by decide, by decide⟩,
    ⟨rfl, by decide, by decide, by decide, by decide, by decide⟩,
    fun hall => ?_, fun hall => ?_⟩
  · exact absurd (hall [.assign_handle 7] orphanWorld rfl 1 7 (by decide)) (by decide)
  · exact absurd (hall [.register 7, .assign_handle 7, .remove 7, .register 7, .register 8,
      .assign_handle 8] sharedHandleWorld rfl 7 8 (by decide) (by decide) (by decide)
      (by decide)) (by decide)

/-- C1, amended: in every world reached from the empty directory by a sequence
of calls of `registerNewObject`, `registerNewObjectId` and `removeObject` that
respects the life cycle, no two entries of the handle map have the same
handle, no two members carry the same handle, and every object the handle map
points to is in the membership set. -/
theorem handle_map_sound (ops : List Op) (w : World)
    (hl : lifecycleRespecting ops = true)
    (hr : run World.empty ops = some w) :
    w.registry._map.keys.Nodup ∧
    (∀ h x y, (h, x) ∈ w.registry._map.entries → (h, y) ∈ w.registry._map.entries → x = y) ∧
    (∀ x y, x ∈ w.registry._all_objects.elems → y ∈ w.registry._all_objects.elems →
      w._id x ≠ HandleNull → w._id x = w._id y → x = y) ∧
    ∀ h x, w.registry._map.find h = some x → x ∈ w.registry._all_objects.elems := by
  obtain ⟨w1, ph, hr1, _, hmem, hnull, hmap⟩ :=
    lifecycleInv_run ops (fun _ => .fresh) World.empty lifecycleInv_empty hl
  have hw : w1 = w := by
    rw [hr] at hr1
    exact (Option.some.inj hr1).symm
  subst hw
  have hassigned : ∀ o, o ∈ w1.registry._all_objects.elems → w1._id o ≠ HandleNull →
      ph o = .assigned := by
    intro o ho hnz
    rcases (hmem o).mp ho with hreg | ha
    · exact absurd (hnull o (Or.inr hreg)) hnz
    · exact ha
  refine ⟨w1.registry._map.nodupKeys, fun h x y => w1.registry._map.eq_of_mem_entries,
    fun x y hx hy hnz hxy => ?_, fun h x hf => ?_⟩
  · have hfx : w1.registry._map.find (w1._id x) = some x :=
      (hmap _ x).mpr ⟨hassigned x hx hnz, rfl⟩
    have hfy : w1.registry._map.find (w1._id x) = some y :=
      (hmap _ y).mpr ⟨hassigned y hy (by rw [← hxy]; exact hnz), hxy.symm⟩
    rw [hfx] at hfy
    exact Option.some.inj hfy
  · exact (hmem x).mpr (Or.inr ((hmap h x).mp hf).1)

/-- Witness for C1: two registered objects, the first with a handle. -/
theorem handle_map_sound_witness :
    lifecycleRespecting [.register 7, .assign_handle 7, .register 8] = true ∧
    run World.empty [.register 7, .assign_handle 7, .register 8] = some sampleWorld ∧
    (sampleWorld.registry._map.keys.Nodup ∧
     (∀ h x y, (h, x) ∈ sampleWorld.registry._map.entries →
        (h, y) ∈ sampleWorld.registry._map.entries → x = y) ∧
     (∀ x y, x ∈ sampleWorld.registry._all_objects.elems →
        y ∈ sampleWorld.registry._all_objects.elems →
        sampleWorld._id x ≠ HandleNull → sampleWorld._id x = sampleWorld._id y → x = y) ∧
     ∀ h x, sampleWorld.registry._map.find h = some x →
        x ∈ sampleWorld.registry._all_objects.elems) :=
  ⟨by decide, rfl,
    handle_map_sound [.register 7, .assign_handle 7, .register 8] sampleWorld (by decide) rfl⟩

/-- C2: a sequence of calls that respects the life cycle runs from the empty
directory without a failing assertion, and in the world it reaches the handle
map holds object `o` under the non-null handle `h` exactly when `o` is in the
membership set and carries `h`. -/
theorem handle_map_exact (ops : List Op) (hl : lifecycleRespecting ops = true) :
    ∃ w, run World.empty ops = some w ∧
      ∀ h o, h ≠ HandleNull →
        (w.registry._map.find h = some o ↔
          o ∈ w.registry._all_objects.elems ∧ w._id o = h) := by
  obtain ⟨w, ph, hr, hc, hmem, hnull, hmap⟩ :=
    lifecycleInv_run ops (fun _ => .fresh) World.empty lifecycleInv_empty hl
  refine ⟨w, hr, fun h o h0 => ?_⟩
  rw [hmap, hmem]
  constructor
  · rintro ⟨ha, hid⟩
    exact ⟨Or.inr ha, hid⟩
  · rintro ⟨hra | ha, hid⟩
    · rw [hnull o (Or.inr hra)] at hid
      exact absurd hid.symm h0
    · exact ⟨ha, hid⟩

/-- Witness for C2: the same sequence, which respects the life cycle. -/
theorem handle_map_exact_witness :
    lifecycleRespecting [.register 7, .assign_handle 7, .register 8] = true ∧
    (sampleWorld.registry._map.find 1 = some 7 ↔
      7 ∈ sampleWorld.registry._all_objects.elems ∧ sampleWorld._id 7 = 1) := by
  refine ⟨by decide, ?_⟩
  obtain ⟨w, hr, hw⟩ :=
    handle_map_exact [.register 7, .assign_handle 7, .register 8] (by decide)
  have hws : w = sampleWorld := (Option.some.inj hr).symm
  rw [← hws]
  exact hw 1 7 (by decide)

/-- C3: in no world reached from an empty directory, whatever handles the
objects carry at the start, by calls that pass their assertions is the null
handle a key of the handle map, and in every world `getObject`,
`getObjectRef` and `u_getObject` return nothing for the null handle. -/
theorem null_handle_never_key :
    (∀ (ids : ObjPtr → Handle) (ops : List Op) (w : World),
      run { registry := object_registry.empty, _id := ids } ops = some w →
      HandleNull ∉ w.registry._map.keys) ∧
    (∀ w : World, getObject w 0 = none ∧ getObjectRef w 0 = none ∧ u_getObject w 0 = none) := by
  refine ⟨fun ids ops w hr => ?_, fun w => ⟨rfl, rfl, rfl⟩⟩
  rw [← registry_container.find_eq_none_iff]
  exact (noNullKey_run ops _ w (noNullKey_init ids) hr).2

/-- Witness for C3: a sequence in which a released handle is issued again. -/
theorem null_handle_never_key_witness :
    run World.empty [.register 7, .assign_handle 7, .remove 7, .register 8, .assign_handle 8]
      = some reissuedWorld ∧
    HandleNull ∉ reissuedWorld.registry._map.keys :=
  ⟨rfl, null_handle_never_key.1 (fun _ => HandleNull)
    [.register 7, .assign_handle 7, .remove 7, .register 8, .assign_handle 8]
    reissuedWorld rfl⟩

/-- C4: when a member that carries a non-null handle `h` is removed, the call
returns and the lookups of `h` return nothing; after any further calls a
lookup of `h` never returns the removed object: what it returns is an object
whose handle was null at the removal and is `h` now, and an object that a
later `registerNewObjectId` gives the handle `h` is what the lookup returns
then. -/
theorem removed_handle_absent (w : World) (obj : ObjPtr) (h : Handle)
    (hm : obj ∈ w.registry._all_objects.elems) (hid : w._id obj = h)
    (h0 : h ≠ HandleNull) :
    ∃ w1, removeObject w obj = .returned w1 ∧
      getObject w1 h = none ∧ getObjectRef w1 h = none ∧ u_getObject w1 h = none ∧
      (∀ (ops : List Op) (w2 : World), run w1 ops = some w2 →
        ∀ x, getObject w2 h = some x →
          x ≠ obj ∧ w1._id x = HandleNull ∧ w2._id x = h) ∧
      (∀ (ops : List Op) (w2 w3 : World) (fresh : ObjPtr), run w1 ops = some w2 →
        registerNewObjectId w2 fresh = .returned w3 → w3._id fresh = h →
          getObject w3 h = some fresh ∧ fresh ≠ obj) := by
  subst hid
  have hret : removeObject w obj = .returned (removeObject w obj).world := by
    rw [removeObject_of_mem hm]
    rfl
  have hid1 : (removeObject w obj).world._id = w._id := by
    rw [removeObject_of_mem hm]
    rfl
  have hmap1 : (removeObject w obj).world.registry._map =
      w.registry._map.erase (w._id obj) := by
    rw [removeObject_of_mem hm]
    show (if w._id obj ≠ HandleNull then _ else _) = _
    rw [if_pos h0]
  generalize (removeObject w obj).world = w1 at hret hid1 hmap1
  have hfind : w1.registry._map.find (w._id obj) = none := by
    rw [hmap1]
    exact registry_container.find_erase_self _ _
  have hget : getObject w1 (w._id obj) = none := by
    rw [getObject_of_ne_null _ h0]
    exact hfind
  have hbase : IssuedSince w._id (w._id obj) w1 := by
    refine ⟨fun x => Or.inl (by rw [hid1]), fun x hf => ?_⟩
    rw [hfind] at hf
    cases hf
  have hlater : ∀ (ops : List Op) (w2 : World), run w1 ops = some w2 →
      ∀ x, getObject w2 (w._id obj) = some x →
        x ≠ obj ∧ w1._id x = HandleNull ∧ w2._id x = w._id obj := by
    intro ops w2 hr x hx
    have hi := issuedSince_run h0 ops w1 w2 hbase hr
    rw [getObject_of_ne_null _ h0] at hx
    obtain ⟨hb, hnow⟩ := hi.2 x hx
    refine ⟨?_, by rw [hid1]; exact hb, hnow⟩
    rintro rfl
    exact h0 hb
  refine ⟨w1, hret, hget, ?_, ?_, hlater, ?_⟩
  · rw [getObjectRef_eq]
    exact hget
  · rw [u_getObject_eq]
    exact hget
  · intro ops w2 w3 fresh hr hs hh
    have hfound : getObject w3 (w._id obj) = some fresh := by
      obtain ⟨_, hfresh, rfl⟩ := registerNewObjectId_inv hs
      have hh2 : w2.registry._idGen.newId.1 = w._id obj := by
        have hh3 : (if fresh = fresh then w2.registry._idGen.newId.1 else w2._id fresh) =
            w._id obj := hh
        rwa [if_pos rfl] at hh3
      rw [getObject_of_ne_null _ h0, ← hh2]
      exact registry_container.find_insert_self _ _ _ hfresh
    have hstep : run w1 (ops ++ [.assign_handle fresh]) = some w3 :=
      run_append_one hr hs
    exact ⟨hfound, (hlater _ w3 hstep fresh hfound).1⟩

/-- Witness for C4: object 7 with handle one is removed, the lookup of one
returns nothing, and once object 8 is issued handle one the lookup returns
object 8. -/
theorem removed_handle_absent_witness :
    7 ∈ sampleWorld.registry._all_objects.elems ∧ sampleWorld._id 7 = 1 ∧
    removeObject sampleWorld 7 = .returned (removeObject sampleWorld 7).world ∧
    getObject (removeObject sampleWorld 7).world 1 = none ∧
    getObject (registerNewObjectId (removeObject sampleWorld 7).world 8).world 1 = some 8 := by
  obtain ⟨w1, hret, hnone, _, _, _, hagain⟩ :=
    removed_handle_absent sampleWorld 7 1 (by decide) (by decide) (by decide)
  have hw1 : w1 = (removeObject sampleWorld 7).world := by
    rw [hret]
    rfl
  subst hw1
  exact ⟨by decide, by decide, rfl, hnone,
    (hagain [] _ (registerNewObjectId (removeObject sampleWorld 7).world 8).world 8
      rfl rfl (by decide)).1⟩

/-- C5, as stated, fails: there are worlds, reached without a failing
assertion, in which the handle the allocator issues is a key of the handle
map, so that `registerNewObjectId` of an object without a handle fails its
freshness assertion. In the first, object 7 was removed twice and handle one,
twice in the pool, is issued to object 8 and then again for object 9. In the
second, the directory was saved and loaded while the re-registered object 7
carried handle one and handle one was in the pool. -/
theorem assign_handle_fails_freshness :
    (run World.empty [.register 7, .assign_handle 7, .remove 7, .register 7, .remove 7,
        .register 8, .assign_handle 8, .register 9] = some doubleReleaseWorld ∧
      doubleReleaseWorld._id 9 = HandleNull ∧
      doubleReleaseWorld.registry._idGen.newId.1 = 1 ∧
      doubleReleaseWorld.registry._map.find 1 = some 8 ∧
      (registerNewObjectId doubleReleaseWorld 9).failed = true) ∧
    (run World.empty [.register 7, .assign_handle 7, .remove 7, .register 7] =
        some staleWorld ∧
      save staleWorld (carriesHandle staleWorld._id) 1 = some
        { objects := staleWorld.registry._all_objects
          oldCnt := registry_container_old.empty
          idGen := staleWorld.registry._idGen
          ids := staleWorld._id
          is_public := carriesHandle staleWorld._id } ∧
      (load World.empty
        { objects := staleWorld.registry._all_objects
          oldCnt := registry_container_old.empty
          idGen := staleWorld.registry._idGen
          ids := staleWorld._id
          is_public := carriesHandle staleWorld._id } 1).world._id 8 = HandleNull ∧
      (registerNewObjectId (load World.empty
        { objects := staleWorld.registry._all_objects
          oldCnt := registry_container_old.empty
          idGen := staleWorld.registry._idGen
          ids := staleWorld._id
          is_public := carriesHandle staleWorld._id } 1).world 8).failed = true) ∧
    ¬ (∀ (w : World) (obj : ObjPtr), w._id obj = HandleNull →
        (registerNewObjectId w obj).failed = false) := by
  refine ⟨⟨rfl, by decide, by decide, by decide, by decide⟩,
    ⟨rfl, rfl, by decide, by decide⟩, fun hall => ?_⟩
  exact absurd (hall doubleReleaseWorld 9 (by decide)) (by decide)

/-- C5, amended: in a world whose allocator agrees with the handle map,
`registerNewObjectId` of an object without a handle returns; the object then
carries the handle the allocator issued, which is not null, the lookups of
that handle return the object, and the lookups of every other handle return
what they returned before. -/
theorem registerNewObjectId_assigns (w : World) (obj : ObjPtr)
    (hc : Consistent w) (h0 : w._id obj = HandleNull) :
    ∃ w1, registerNewObjectId w obj = .returned w1 ∧
      w1._id obj = w.registry._idGen.newId.1 ∧
      w1._id obj ≠ HandleNull ∧
      getObject w1 (w1._id obj) = some obj ∧
      getObjectRef w1 (w1._id obj) = some obj ∧
      u_getObject w1 (w1._id obj) = some obj ∧
      ∀ h, h ≠ w1._id obj →
        getObject w1 h = getObject w h ∧ getObjectRef w1 h = getObjectRef w h ∧
          u_getObject w1 h = u_getObject w h := by
  obtain ⟨hnz, hfresh⟩ := consistent_newId_fresh hc
  have hid : (if obj = obj then w.registry._idGen.newId.1 else w._id obj) =
      w.registry._idGen.newId.1 := if_pos rfl
  have hget : getObject
      { registry :=
          { _map := w.registry._map.insert w.registry._idGen.newId.1 obj
            _idGen := w.registry._idGen.newId.2
            _all_objects := w.registry._all_objects }
        _id := fun o => if o = obj then w.registry._idGen.newId.1 else w._id o }
      w.registry._idGen.newId.1 = some obj := by
    rw [getObject_of_ne_null _ hnz]
    exact registry_container.find_insert_self _ _ _ hfresh
  have hother : ∀ h, h ≠ w.registry._idGen.newId.1 → getObject
      { registry :=
          { _map := w.registry._map.insert w.registry._idGen.newId.1 obj
            _idGen := w.registry._idGen.newId.2
            _all_objects := w.registry._all_objects }
        _id := fun o => if o = obj then w.registry._idGen.newId.1 else w._id o } h =
      getObject w h := by
    intro h hh
    rw [getObject_eq, getObject_eq]
    show (if h = 0 then none
      else (w.registry._map.insert w.registry._idGen.newId.1 obj).find h) = _
    rw [registry_container.find_insert_of_ne _ _ hh]
  refine ⟨_, registerNewObjectId_of_fresh h0 hfresh, hid, ?_, ?_, ?_, ?_, ?_⟩
  · show (if obj = obj then w.registry._idGen.newId.1 else w._id obj) ≠ HandleNull
    rw [hid]
    exact hnz
  · show getObject _ (if obj = obj then w.registry._idGen.newId.1 else w._id obj) = some obj
    rw [hid]
    exact hget
  · show getObjectRef _ (if obj = obj then w.registry._idGen.newId.1 else w._id obj) =
      some obj
    rw [hid, getObjectRef_eq]
    exact hget
  · show u_getObject _ (if obj = obj then w.registry._idGen.newId.1 else w._id obj) =
      some obj
    rw [hid, u_getObject_eq]
    exact hget
  · intro h hh
    have hh2 : h ≠ w.registry._idGen.newId.1 := by
      intro e
      exact hh (e.trans hid.symm)
    refine ⟨hother h hh2, ?_, ?_⟩
    · rw [getObjectRef_eq, getObjectRef_eq]
      exact hother h hh2
    · rw [u_getObject_eq, u_getObject_eq]
      exact hother h hh2

/-- Witness for C5: object 8 of the sample world, a member without a handle. -/
theorem registerNewObjectId_assigns_witness :
    Consistent sampleWorld ∧ sampleWorld._id 8 = HandleNull ∧
    ∃ w1, registerNewObjectId sampleWorld 8 = .returned w1 ∧
      w1._id 8 ≠ HandleNull ∧ getObject w1 (w1._id 8) = some 8 :=
  ⟨by decide, by decide,
    (registerNewObjectId_assigns sampleWorld 8 (by decide) (by decide)).imp
      (fun _ h => ⟨h.1, h.2.2.1, h.2.2.2.1⟩)⟩

/-- C6: `filter_objects` returns each member of the membership set that
satisfies the predicate exactly once and nothing else, and with the
always-true predicate it returns exactly the elements of the membership
set. -/
theorem filter_objects_exact (w : World) (p : ObjPtr → Bool) :
    (∀ x, (filter_objects w p).count x =
      if x ∈ w.registry._all_objects.elems ∧ p x = true then 1 else 0) ∧
    (∀ x, x ∈ filter_objects w p ↔ x ∈ w.registry._all_objects.elems ∧ p x = true) ∧
    (filter_objects w p).Nodup ∧
    filter_objects w (fun _ => true) = w.registry._all_objects.elems := by
  refine ⟨fun x => ?_, fun x => ?_, ?_, ?_⟩
  · unfold filter_objects
    rw [List.count_eq_of_nodup (w.registry._all_objects.nodup.filter p)]
    simp only [List.mem_filter]
  · unfold filter_objects
    exact List.mem_filter
  · exact w.registry._all_objects.nodup.filter p
  · unfold filter_objects
    exact List.filter_true _

/-- C7: `getObject`, `getObjectRef` and `u_getObject` agree on every world and
handle: they return nothing for the null handle and what the handle map holds
for any other handle, so nothing when the handle is not a key. -/
theorem lookups_agree (w : World) (hdl : Handle) :
    getObject w hdl = (if hdl = 0 then none else w.registry._map.find hdl) ∧
    getObjectRef w hdl = getObject w hdl ∧
    u_getObject w hdl = getObject w hdl ∧
    (∀ obj, hdl ≠ 0 → w.registry._map.find hdl = some obj → getObject w hdl = some obj) ∧
    (hdl = 0 ∨ hdl ∉ w.registry._map.keys → getObject w hdl = none) := by
  refine ⟨getObject_eq w hdl, getObjectRef_eq w hdl, u_getObject_eq w hdl, ?_, ?_⟩
  · intro obj h0 hf
    rw [getObject_eq, if_neg h0, hf]
  · rintro (h0 | hk)
    · rw [getObject_eq, if_pos h0]
    · rw [getObject_eq, (registry_container.find_eq_none_iff _ _).mpr hk]
      split <;> rfl

/-- Witness for C7: handle one is a key of the sample world, handle five is
not. -/
theorem lookups_agree_witness :
    (sampleWorld.registry._map.find 1 = some 7 ∧ getObject sampleWorld 1 = some 7) ∧
    (5 ∉ sampleWorld.registry._map.keys ∧ getObject sampleWorld 5 = none) :=
  ⟨⟨by decide, (lookups_agree sampleWorld 1).2.2.2.1 7 (by decide) (by decide)⟩,
   ⟨by decide, (lookups_agree sampleWorld 5).2.2.2.2 (Or.inr (by decide))⟩⟩

/-- C8: `removeObject` of a member returns; the membership set loses exactly
that object, and the handle map loses exactly the entry under the object's
handle, nothing at all when that handle is null. -/
theorem removeObject_frame (w : World) (obj : ObjPtr)
    (hm : obj ∈ w.registry._all_objects.elems) :
    ∃ w1, removeObject w obj = .returned w1 ∧
      (∀ x, x ∈ w1.registry._all_objects.elems ↔
        x ∈ w.registry._all_objects.elems ∧ x ≠ obj) ∧
      (∀ h, w1.registry._map.find h =
        if h = w._id obj ∧ w._id obj ≠ HandleNull then none
        else w.registry._map.find h) ∧
      (w._id obj = HandleNull → w1.registry._map = w.registry._map) := by
  refine ⟨_, removeObject_of_mem hm, fun x => ?_, fun h => ?_, fun h0 => ?_⟩
  · show x ∈ (w.registry._all_objects.erase obj).elems ↔ _
    rw [all_objects_set.mem_erase]
    exact And.comm
  · show (if w._id obj ≠ HandleNull then w.registry._map.erase (w._id obj)
      else w.registry._map).find h = _
    by_cases h0 : w._id obj = HandleNull
    · simp [h0]
    · by_cases hh : h = w._id obj
      · subst hh
        simp [h0, registry_container.find_erase_self]
      · simp [h0, hh, registry_container.find_erase_of_ne _ hh]
  · show (if w._id obj ≠ HandleNull then w.registry._map.erase (w._id obj)
      else w.registry._map) = _
    simp [h0]

/-- Witness for C8: object 8 of the sample world, a member without a handle. -/
theorem removeObject_frame_witness :
    8 ∈ sampleWorld.registry._all_objects.elems ∧ sampleWorld._id 8 = HandleNull ∧
    ∃ w1, removeObject sampleWorld 8 = .returned w1 ∧
      (∀ x, x ∈ w1.registry._all_objects.elems ↔
        x ∈ sampleWorld.registry._all_objects.elems ∧ x ≠ 8) ∧
      w1.registry._map = sampleWorld.registry._map :=
  ⟨by decide, by decide,
    (removeObject_frame sampleWorld 8 (by decide)).imp
      (fun _ h => ⟨h.1, h.2.1, h.2.2.2 (by decide)⟩)⟩

/-- C9, as stated, fails: object 7 was given handle one before it was
registered, which no assertion rejects; it is not a member, and after
`registerNewObject` the lookup of handle one returns it. -/
theorem register_after_assign_is_found :
    run World.empty [.assign_handle 7] = some orphanWorld ∧
    7 ∉ orphanWorld.registry._all_objects.elems ∧
    registerNewObject orphanWorld 7 = .returned (registerNewObject orphanWorld 7).world ∧
    getObject (registerNewObject orphanWorld 7).world 1 = some 7 ∧
    ¬ (∀ (w : World) (obj : ObjPtr), obj ∉ w.registry._all_objects.elems →
        ∀ h, getObject (registerNewObject w obj).world h ≠ some obj) := by
  refine ⟨rfl, by decide, rfl, by decide, fun hall => ?_⟩
  exact absurd (hall orphanWorld 7 (by decide) 1) (by decide)

/-- C9, amended: `registerNewObject` of a non-member returns; the membership
set gains exactly that object, no object's handle changes, the handle map and
the allocator stay as they are, so the object is returned by `filter_objects`
and every lookup answers as before: the object is returned by no lookup when
the handle map held no entry for it before the call. -/
theorem registerNewObject_frame (w : World) (obj : ObjPtr)
    (hm : obj ∉ w.registry._all_objects.elems) :
    ∃ w1, registerNewObject w obj = .returned w1 ∧
      (∀ x, x ∈ w1.registry._all_objects.elems ↔
        x ∈ w.registry._all_objects.elems ∨ x = obj) ∧
      w1._id = w._id ∧
      w1.registry._map = w.registry._map ∧
      w1.registry._idGen = w.registry._idGen ∧
      obj ∈ filter_objects w1 (fun _ => true) ∧
      (∀ h, getObject w1 h = getObject w h ∧ getObjectRef w1 h = getObjectRef w h ∧
        u_getObject w1 h = u_getObject w h) ∧
      ((∀ h, w.registry._map.find h ≠ some obj) →
        ∀ h, getObject w1 h ≠ some obj ∧ getObjectRef w1 h ≠ some obj ∧
          u_getObject w1 h ≠ some obj) := by
  have hmem : ∀ x, x ∈ (w.registry._all_objects.insert obj).elems ↔
      x ∈ w.registry._all_objects.elems ∨ x = obj := fun x => by
    rw [all_objects_set.mem_insert]
    exact Or.comm
  have hget : ∀ h, getObject
      { w with registry :=
        { w.registry with _all_objects := w.registry._all_objects.insert obj } } h =
      getObject w h := fun h => by
    rw [getObject_eq, getObject_eq]
  refine ⟨_, registerNewObject_of_not_mem hm, hmem, rfl, rfl, rfl, ?_, ?_, ?_⟩
  · rw [filter_objects_true]
    exact (hmem obj).mpr (Or.inr rfl)
  · intro h
    refine ⟨hget h, ?_, ?_⟩
    · rw [getObjectRef_eq, getObjectRef_eq, hget]
    · rw [u_getObject_eq, u_getObject_eq, hget]
  · intro hinv h
    have key : getObject
        { w with registry :=
          { w.registry with _all_objects := w.registry._all_objects.insert obj } } h ≠
        some obj := by
      rw [hget, getObject_eq]
      split
      · simp
      · exact hinv h
    refine ⟨key, ?_, ?_⟩
    · rw [getObjectRef_eq]
      exact key
    · rw [u_getObject_eq]
      exact key

/-- Witness for C9: object 9 is registered in the sample world, whose handle
map holds no entry for it. -/
theorem registerNewObject_frame_witness :
    9 ∉ sampleWorld.registry._all_objects.elems ∧
    (∀ h, sampleWorld.registry._map.find h ≠ some 9) ∧
    ∃ w1, registerNewObject sampleWorld 9 = .returned w1 ∧
      w1.registry._map = sampleWorld.registry._map ∧
      9 ∈ filter_objects w1 (fun _ => true) ∧
      ∀ h, getObject w1 h ≠ some 9 := by
  have hno : ∀ h, sampleWorld.registry._map.find h ≠ some 9 := fun h hf =>
    absurd ((noDangling_run [.register 7, .assign_handle 7, .register 8]
      World.empty sampleWorld (noNullKey_init _) (fun _ _ hf => by cases hf)
      (by decide) rfl) h 9 hf).1 (by decide)
  exact ⟨by decide, hno,
    (registerNewObject_frame sampleWorld 9 (by decide)).imp
      (fun _ h => ⟨h.1, h.2.2.2.1, h.2.2.2.2.2.1, fun hdl => (h.2.2.2.2.2.2.2 hno hdl).1⟩)⟩

/-- C10: `registerNewObject` fails its assertion exactly when the object is
already a member, `registerNewObjectId` fails its assertion when the object
already carries a handle, `removeObject` fails its assertion exactly when the
object is not a member, and so it does on a second removal of an object. -/
theorem assertions_fail_exactly (w : World) (obj : ObjPtr) :
    ((registerNewObject w obj).failed = true ↔ obj ∈ w.registry._all_objects.elems) ∧
    (w._id obj ≠ HandleNull → (registerNewObjectId w obj).failed = true) ∧
    ((removeObject w obj).failed = true ↔ obj ∉ w.registry._all_objects.elems) ∧
    (∀ w1, removeObject w obj = .returned w1 → (removeObject w1 obj).failed = true) := by
  have hrem : ∀ (v : World) (o : ObjPtr),
      (removeObject v o).failed = true ↔ o ∉ v.registry._all_objects.elems := by
    intro v o
    by_cases hm : o ∈ v.registry._all_objects.elems
    · rw [removeObject_of_mem hm]
      simp [Outcome.failed, hm]
    · rw [removeObject_of_not_mem hm]
      simp [Outcome.failed, hm]
  refine ⟨?_, ?_, hrem w obj, ?_⟩
  · by_cases hm : obj ∈ w.registry._all_objects.elems
    · rw [registerNewObject_of_mem hm]
      simp [Outcome.failed, hm]
    · rw [registerNewObject_of_not_mem hm]
      simp [Outcome.failed, hm]
  · intro h0
    rw [registerNewObjectId_of_handle h0]
    rfl
  · intro w1 h1
    obtain ⟨_, rfl⟩ := removeObject_inv h1
    rw [hrem]
    show obj ∉ (w.registry._all_objects.erase obj).elems
    rw [all_objects_set.mem_erase]
    exact fun h => h.1 rfl

/-- Witness for C10: object 7 of the sample world carries a handle, and it
cannot be removed twice. -/
theorem assertions_fail_exactly_witness :
    (sampleWorld._id 7 ≠ HandleNull ∧ (registerNewObjectId sampleWorld 7).failed = true) ∧
    (removeObject sampleWorld 7 = .returned (removeObject sampleWorld 7).world ∧
      (removeObject (removeObject sampleWorld 7).world 7).failed = true) :=
  ⟨⟨by decide, (assertions_fail_exactly sampleWorld 7).2.1 (by decide)⟩,
   ⟨rfl, (assertions_fail_exactly sampleWorld 7).2.2.2 _ rfl⟩⟩

/-! ## Facts about `load` and the snapshot guard -/

theorem registry_container.insert_of_find_some (m : registry_container) {k : HandleT}
    {x : ObjPtr} (v : ObjPtr) (hf : m.find k = some x) : m.insert k v = m := by
  have hk : k ∈ m.entries.map Prod.fst := by
    have h1 : k ∈ m.keys := by
      rw [registry_container.mem_keys_iff, hf]
      simp
    exact h1
  unfold registry_container.insert
  rw [dif_pos hk]

theorem registry_container.find_insert_of_some (m : registry_container) {k h : HandleT}
    {x : ObjPtr} (v : ObjPtr) (hf : m.find h = some x) : (m.insert k v).find h = some x := by
  by_cases hk : h = k
  · subst hk
    rw [registry_container.insert_of_find_some m v hf]
    exact hf
  · rw [registry_container.find_insert_of_ne _ _ hk]
    exact hf

theorem lookupEntry_eq_some_iff (l : List (HandleT × ObjPtr))
    (hnd : (l.map Prod.fst).Nodup) (h : HandleT) (o : ObjPtr) :
    lookupEntry h l = some o ↔ (h, o) ∈ l := by
  induction l with
  | nil => simp [lookupEntry]
  | cons e rest ih =>
    rw [List.map_cons, List.nodup_cons] at hnd
    by_cases he : e.1 = h
    · have h1 : lookupEntry h (e :: rest) = some e.2 := by
        show (if e.1 = h then some e.2 else lookupEntry h rest) = some e.2
        rw [if_pos he]
      rw [h1, List.mem_cons]
      constructor
      · intro h2
        left
        have h3 : e.2 = o := Option.some.inj h2
        rw [← he, ← h3]
      · rintro (h2 | h2)
        · rw [← h2]
        · exact absurd (List.mem_map.mpr ⟨(h, o), h2, he.symm⟩) hnd.1
    · have h1 : lookupEntry h (e :: rest) = lookupEntry h rest := by
        show (if e.1 = h then some e.2 else lookupEntry h rest) = lookupEntry h rest
        rw [if_neg he]
      rw [h1, ih hnd.2, List.mem_cons]
      constructor
      · exact Or.inr
      · rintro (h2 | h2)
        · exact absurd (by rw [← h2]) he
        · exact h2

theorem registry_container.find_eq_some_iff (m : registry_container) (h : HandleT)
    (o : ObjPtr) : m.find h = some o ↔ (h, o) ∈ m.entries :=
  lookupEntry_eq_some_iff m.entries m.nodupKeys h o

theorem registry_container_old.nodupKeys (m : registry_container_old) :
    (m.entries.map Prod.fst).Nodup :=
  m.sorted.imp (fun hab => Nat.ne_of_lt hab)

theorem find_insertRange (l : List (HandleT × ObjPtr)) : ∀ (m : registry_container)
    (h : HandleT), (insertRange m l).find h =
      match m.find h with
      | some x => some x
      | none => lookupEntry h l := by
  induction l with
  | nil =>
    intro m h
    show m.find h = _
    cases m.find h <;> rfl
  | cons e rest ih =>
    intro m h
    show (insertRange (m.insert e.1 e.2) rest).find h = _
    rw [ih]
    cases hm : m.find h with
    | some x =>
      rw [registry_container.find_insert_of_some m e.2 hm]
    | none =>
      by_cases he : e.1 = h
      · subst he
        rw [registry_container.find_insert_self _ _ _ hm]
        show some e.2 = if e.1 = e.1 then some e.2 else lookupEntry e.1 rest
        rw [if_pos rfl]
      · rw [registry_container.find_insert_of_ne _ _ (fun e2 => he e2.symm), hm]
        show lookupEntry h rest = if e.1 = h then some e.2 else lookupEntry h rest
        rw [if_neg he]

theorem mem_insertSeconds (l : List (HandleT × ObjPtr)) : ∀ (s : all_objects_set)
    (o : ObjPtr), o ∈ (insertSeconds s l).elems ↔ o ∈ s.elems ∨ o ∈ l.map Prod.snd := by
  induction l with
  | nil =>
    intro s o
    show o ∈ s.elems ↔ _
    simp
  | cons e rest ih =>
    intro s o
    show o ∈ (insertSeconds (s.insert e.2) rest).elems ↔ _
    rw [ih, all_objects_set.mem_insert, List.map_cons, List.mem_cons]
    constructor
    · rintro ((h | h) | h)
      · exact Or.inr (Or.inl h)
      · exact Or.inl h
      · exact Or.inr (Or.inr h)
    · rintro (h | h | h)
      · exact Or.inl (Or.inr h)
      · exact Or.inl (Or.inl h)
      · exact Or.inr h

theorem find_insertPublic (uid : ObjPtr → HandleT) (pub : ObjPtr → Bool)
    (l : List ObjPtr) : ∀ (m : registry_container) (h : HandleT),
    (insertPublic uid pub m l).find h =
      match m.find h with
      | some x => some x
      | none => l.find? (fun o => pub o && decide (uid o = h)) := by
  induction l with
  | nil =>
    intro m h
    show m.find h = _
    cases m.find h <;> rfl
  | cons obj rest ih =>
    intro m h
    show (insertPublic uid pub (if pub obj = true then m.insert (uid obj) obj else m)
      rest).find h = _
    rw [ih]
    by_cases hp : pub obj = true
    · rw [if_pos hp]
      cases hm : m.find h with
      | some x =>
        rw [registry_container.find_insert_of_some m obj hm]
      | none =>
        by_cases he : uid obj = h
        · subst he
          rw [registry_container.find_insert_self _ _ _ hm]
          simp [List.find?_cons, hp]
        · rw [registry_container.find_insert_of_ne _ _ (fun e2 => he e2.symm), hm]
          simp [List.find?_cons, hp, he]
    · rw [if_neg hp]
      cases hm : m.find h with
      | some x => rfl
      | none =>
        simp [List.find?_cons, hp]

theorem lockAll_apply (l : List ObjPtr) : ∀ (locks : LockState) (o : ObjPtr),
    lockAll locks l o = locks o + l.count o := by
  induction l with
  | nil =>
    intro locks o
    rfl
  | cons obj rest ih =>
    intro locks o
    show lockAll (lockMutex locks obj) rest o = _
    rw [ih, List.count_cons]
    by_cases ho : o = obj
    · subst ho
      simp [lockMutex]
      omega
    · have ho2 : ¬ obj = o := fun e => ho e.symm
      simp [lockMutex, ho, ho2]

theorem unlockAll_apply (l : List ObjPtr) : ∀ (locks : LockState) (o : ObjPtr),
    unlockAll locks l o = locks o - l.count o := by
  induction l with
  | nil =>
    intro locks o
    rfl
  | cons obj rest ih =>
    intro locks o
    show unlockAll (unlockMutex locks obj) rest o = _
    rw [ih, List.count_cons]
    by_cases ho : o = obj
    · subst ho
      simp [unlockMutex]
      omega
    · have ho2 : ¬ obj = o := fun e => ho e.symm
      simp [unlockMutex, ho, ho2]

theorem all_objects_set.count_elems (s : all_objects_set) (o : ObjPtr) :
    s.elems.count o = if o ∈ s.elems then 1 else 0 :=
  List.count_eq_of_nodup s.nodup

theorem load_one (w : World) (ar : Archive) :
    load w ar 1 = .returned
      { registry :=
          { _map := insertPublic (fun o => if o ∈ ar.objects.elems then ar.ids o else w._id o)
              ar.is_public w.registry._map ar.objects.elems
            _idGen := ar.idGen
            _all_objects := ar.objects }
        _id := fun o => if o ∈ ar.objects.elems then ar.ids o else w._id o } := rfl

theorem load_zero (w : World) (ar : Archive) :
    load w ar 0 = .returned
      { registry :=
          { _map := insertRange w.registry._map ar.oldCnt.entries
            _idGen := ar.idGen
            _all_objects := insertSeconds w.registry._all_objects ar.oldCnt.entries }
        _id := fun o =>
          if o ∈ ar.oldCnt.entries.map Prod.snd then ar.ids o else w._id o } := rfl

/-! ## Saving and loading a directory that respects the life cycle -/

theorem lifecycleInv_run_phase (ops : List Op) : ∀ (ph : ObjPtr → Phase) (w : World),
    LifecycleInv ph w → lifecycle ph ops = true →
    ∃ w1, run w ops = some w1 ∧ LifecycleInv (phaseAfter ph ops) w1 := by
  induction ops with
  | nil =>
    intro ph w hinv _
    exact ⟨w, rfl, hinv⟩
  | cons op ops ih =>
    intro ph w hinv hl
    cases op with
    | register obj =>
      simp only [lifecycle, Bool.and_eq_true, decide_eq_true_eq] at hl
      obtain ⟨w1, hs, hinv1⟩ := lifecycleInv_register obj hinv hl.1
      obtain ⟨w2, hr, hinv2⟩ := ih _ w1 hinv1 hl.2
      refine ⟨w2, ?_, hinv2⟩
      show (match registerNewObject w obj with
        | .returned w1 => run w1 ops
        | .assert_failed _ => none) = some w2
      rw [hs]
      exact hr
    | assign_handle obj =>
      simp only [lifecycle, Bool.and_eq_true, decide_eq_true_eq] at hl
      obtain ⟨w1, hs, hinv1⟩ := lifecycleInv_assign obj hinv hl.1
      obtain ⟨w2, hr, hinv2⟩ := ih _ w1 hinv1 hl.2
      refine ⟨w2, ?_, hinv2⟩
      show (match registerNewObjectId w obj with
        | .returned w1 => run w1 ops
        | .assert_failed _ => none) = some w2
      rw [hs]
      exact hr
    | remove obj =>
      simp only [lifecycle, Bool.and_eq_true, decide_eq_true_eq] at hl
      obtain ⟨w1, hs, hinv1⟩ := lifecycleInv_remove obj hinv hl.1
      obtain ⟨w2, hr, hinv2⟩ := ih _ w1 hinv1 hl.2
      refine ⟨w2, ?_, hinv2⟩
      show (match removeObject w obj with
        | .returned w1 => run w1 ops
        | .assert_failed _ => none) = some w2
      rw [hs]
      exact hr
    | clear =>
      simp [lifecycle] at hl

theorem lifecycle_append (ops1 ops2 : List Op) : ∀ (ph : ObjPtr → Phase),
    lifecycle ph (ops1 ++ ops2) = true →
    lifecycle ph ops1 = true ∧ lifecycle (phaseAfter ph ops1) ops2 = true := by
  induction ops1 with
  | nil =>
    intro ph hl
    exact ⟨rfl, hl⟩
  | cons op ops ih =>
    intro ph hl
    rw [List.cons_append] at hl
    cases op with
    | register obj =>
      simp only [lifecycle, Bool.and_eq_true, decide_eq_true_eq] at hl ⊢
      exact ⟨⟨hl.1, (ih _ hl.2).1⟩, (ih _ hl.2).2⟩
    | assign_handle obj =>
      simp only [lifecycle, Bool.and_eq_true, decide_eq_true_eq] at hl ⊢
      exact ⟨⟨hl.1, (ih _ hl.2).1⟩, (ih _ hl.2).2⟩
    | remove obj =>
      simp only [lifecycle, Bool.and_eq_true, decide_eq_true_eq] at hl ⊢
      exact ⟨⟨hl.1, (ih _ hl.2).1⟩, (ih _ hl.2).2⟩
    | clear =>
      simp [lifecycle] at hl

theorem lifecycleInv_of_run {ops : List Op} {w : World}
    (hl : lifecycleRespecting ops = true) (hr : run World.empty ops = some w) :
    LifecycleInv (phaseAfter (fun _ => .fresh) ops) w := by
  obtain ⟨w1, hr1, hinv⟩ :=
    lifecycleInv_run_phase ops (fun _ => .fresh) World.empty lifecycleInv_empty hl
  rw [hr] at hr1
  rw [Option.some.inj hr1]
  exact hinv

theorem lifecycleInv_key_ne_null {ph : ObjPtr → Phase} {w : World}
    (hinv : LifecycleInv ph w) {h : HandleT} {o : ObjPtr}
    (hf : w.registry._map.find h = some o) : h ≠ HandleNull := by
  have hk : h ∈ w.registry._map.keys := by
    rw [registry_container.mem_keys_iff, hf]
    simp
  exact (hinv.1.2.2.2 h hk).1

/-- The handle map that `load` builds, in an empty directory, from the
members of a world that respects the life cycle is the handle map of that
world, when the public objects are the members that carry a handle. -/
theorem find_reload {ph : ObjPtr → Phase} {w : World} (hinv : LifecycleInv ph w)
    (pub : ObjPtr → Bool) (other : ObjPtr → Handle)
    (hpub : ∀ o ∈ w.registry._all_objects.elems, pub o = true ↔ w._id o ≠ HandleNull)
    (h : HandleT) :
    (insertPublic
      (fun o => if o ∈ w.registry._all_objects.elems then w._id o else other o) pub
      registry_container.empty w.registry._all_objects.elems).find h =
    w.registry._map.find h := by
  obtain ⟨hc, hmem, hnull, hmap⟩ := hinv
  rw [find_insertPublic]
  show List.find? _ w.registry._all_objects.elems = _
  have hp : ∀ y, y ∈ w.registry._all_objects.elems →
      ((pub y && decide ((if y ∈ w.registry._all_objects.elems then w._id y
        else other y) = h)) = true ↔ w.registry._map.find h = some y) := by
    intro y hy
    rw [if_pos hy, Bool.and_eq_true, decide_eq_true_eq, hpub y hy, hmap]
    constructor
    · rintro ⟨hnz, hid⟩
      rcases (hmem y).mp hy with hr | ha
      · exact absurd (hnull y (Or.inr hr)) hnz
      · exact ⟨ha, hid⟩
    · rintro ⟨ha, hid⟩
      refine ⟨?_, hid⟩
      have hf : w.registry._map.find h = some y := (hmap h y).mpr ⟨ha, hid⟩
      rw [hid]
      exact lifecycleInv_key_ne_null ⟨hc, hmem, hnull, hmap⟩ hf
  cases hf : w.registry._map.find h with
  | none =>
    rw [List.find?_eq_none]
    intro y hy hpy
    have := (hp y hy).mp hpy
    rw [hf] at this
    cases this
  | some x =>
    have hx : x ∈ w.registry._all_objects.elems :=
      (hmem x).mpr (Or.inr ((hmap h x).mp hf).1)
    cases hfind : List.find? (fun o => pub o && decide ((if o ∈ w.registry._all_objects.elems
        then w._id o else other o) = h)) w.registry._all_objects.elems with
    | none =>
      rw [List.find?_eq_none] at hfind
      exact absurd ((hp x hx).mpr hf) (hfind x hx)
    | some y =>
      have hy : y ∈ w.registry._all_objects.elems := List.mem_of_find?_eq_some hfind
      have hpy := List.find?_some hfind
      have h2 := (hp y hy).mp hpy
      rw [hf] at h2
      rw [Option.some.inj h2]

theorem reload_lifecycleInv {ph : ObjPtr → Phase} {w : World} (hinv : LifecycleInv ph w)
    (pub : ObjPtr → Bool)
    (hpub : ∀ o ∈ w.registry._all_objects.elems, pub o = true ↔ w._id o ≠ HandleNull) :
    LifecycleInv ph
      { registry :=
          { _map := insertPublic
              (fun o => if o ∈ w.registry._all_objects.elems then w._id o else HandleNull)
              pub registry_container.empty w.registry._all_objects.elems
            _idGen := w.registry._idGen
            _all_objects := w.registry._all_objects }
        _id := fun o => if o ∈ w.registry._all_objects.elems then w._id o else HandleNull } := by
  have hfind := find_reload hinv pub (fun _ => HandleNull) hpub
  obtain ⟨hc, hmem, hnull, hmap⟩ := hinv
  have hkeys : ∀ k, k ∈ (insertPublic
      (fun o => if o ∈ w.registry._all_objects.elems then w._id o else HandleNull)
      pub registry_container.empty w.registry._all_objects.elems).keys ↔
      k ∈ w.registry._map.keys := by
    intro k
    rw [registry_container.mem_keys_iff, registry_container.mem_keys_iff, hfind]
  refine ⟨⟨hc.1, fun p hp => ?_, hc.2.2.1, fun k hk => ?_⟩, hmem, fun o ho => ?_,
    fun h o => ?_⟩
  · exact ⟨(hc.2.1 p hp).1, (hc.2.1 p hp).2.1, fun hk => (hc.2.1 p hp).2.2 ((hkeys p).mp hk)⟩
  · exact hc.2.2.2 k ((hkeys k).mp hk)
  · show (if o ∈ w.registry._all_objects.elems then w._id o else HandleNull) = HandleNull
    split
    · exact hnull o ho
    · rfl
  · show (insertPublic _ pub registry_container.empty w.registry._all_objects.elems).find h =
      some o ↔ ph o = .assigned ∧
        (if o ∈ w.registry._all_objects.elems then w._id o else HandleNull) = h
    rw [hfind, hmap]
    constructor
    · rintro ⟨ha, hid⟩
      exact ⟨ha, by rw [if_pos ((hmem o).mpr (Or.inr ha))]; exact hid⟩
    · rintro ⟨ha, hid⟩
      rw [if_pos ((hmem o).mpr (Or.inr ha))] at hid
      exact ⟨ha, hid⟩

/-! ## The claims about serialization, clearing and the snapshot guard -/

/-- C11, as stated, fails: a world reached by `registerNewObjectId` alone has
a handle-map entry for an object that is not a member; `save` writes the
members only, so after `load` into the empty directory the lookup of handle
one returns nothing where it returned object 7 before, whatever the public
flags are. -/
theorem round_trip_loses_orphan_entry :
    run World.empty [.assign_handle 7] = some orphanWorld ∧
    getObject orphanWorld 1 = some 7 ∧
    (∀ pub : ObjPtr → Bool, ∃ ar, save orphanWorld pub 1 = some ar ∧
      (load World.empty ar 1).failed = false ∧
      getObject (load World.empty ar 1).world 1 = none) ∧
    ¬ (∀ (ops : List Op) (w : World) (pub : ObjPtr → Bool) (ar : Archive),
        run World.empty ops = some w → save w pub 1 = some ar →
        ∀ h, getObject (load World.empty ar 1).world h = getObject w h) := by
  refine ⟨rfl, by decide, fun pub => ⟨_, rfl, rfl, rfl⟩, fun hall => ?_⟩
  have h1 := hall [.assign_handle 7] orphanWorld (fun _ => true) _ rfl rfl 1
  exact absurd h1 (by decide)

/-- C11, amended: for a world reached from the empty directory by a sequence
of calls that respects the life cycle, whose public objects are the members
that carry a handle, `save` writes an archive and `load` of it into an empty
directory returns; the membership set is the saved one, the members carry the
handles they carried, the handle map holds exactly the public members under
their handles, and every lookup returns what it returned before `save`. -/
theorem save_load_round_trip (ops : List Op) (w target : World) (pub : ObjPtr → Bool)
    (hl : lifecycleRespecting ops = true) (hr : run World.empty ops = some w)
    (hpub : ∀ o ∈ w.registry._all_objects.elems, pub o = true ↔ w._id o ≠ HandleNull)
    (hempty : target.registry = object_registry.empty) :
    ∃ ar w1, save w pub 1 = some ar ∧ load target ar 1 = .returned w1 ∧
      w1.registry._all_objects = w.registry._all_objects ∧
      (∀ o ∈ w.registry._all_objects.elems, w1._id o = w._id o) ∧
      (∀ h o, w1.registry._map.find h = some o ↔
        o ∈ w.registry._all_objects.elems ∧ pub o = true ∧ w._id o = h) ∧
      (∀ h, getObject w1 h = getObject w h ∧ getObjectRef w1 h = getObjectRef w h ∧
        u_getObject w1 h = u_getObject w h) := by
  have hinv := lifecycleInv_of_run hl hr
  have hfind : ∀ h, (insertPublic
      (fun o => if o ∈ w.registry._all_objects.elems then w._id o else target._id o) pub
      target.registry._map w.registry._all_objects.elems).find h =
      w.registry._map.find h := by
    intro h
    rw [hempty]
    exact find_reload hinv pub target._id hpub h
  have hget : ∀ h, getObject
      { registry :=
          { _map := insertPublic
              (fun o => if o ∈ w.registry._all_objects.elems then w._id o else target._id o)
              pub target.registry._map w.registry._all_objects.elems
            _idGen := w.registry._idGen
            _all_objects := w.registry._all_objects }
        _id := fun o =>
          if o ∈ w.registry._all_objects.elems then w._id o else target._id o } h =
      getObject w h := by
    intro h
    rw [getObject_eq, getObject_eq]
    show (if h = 0 then none else (insertPublic _ pub target.registry._map
      w.registry._all_objects.elems).find h) = _
    rw [hfind]
  refine ⟨_, _, rfl, load_one target _, rfl, fun o ho => ?_, fun h o => ?_, fun h => ?_⟩
  · show (if o ∈ w.registry._all_objects.elems then w._id o else target._id o) = w._id o
    rw [if_pos ho]
  · show (insertPublic _ pub target.registry._map w.registry._all_objects.elems).find h =
      some o ↔ _
    rw [hfind]
    obtain ⟨_, hmem, hnull, hmap⟩ := hinv
    constructor
    · intro hf
      have ha := (hmap h o).mp hf
      have hm : o ∈ w.registry._all_objects.elems := (hmem o).mpr (Or.inr ha.1)
      refine ⟨hm, (hpub o hm).mpr ?_, ha.2⟩
      rw [ha.2]
      exact lifecycleInv_key_ne_null (lifecycleInv_of_run hl hr) hf
    · rintro ⟨hm, hp, hid⟩
      refine (hmap h o).mpr ⟨?_, hid⟩
      rcases (hmem o).mp hm with hreg | ha
      · exact absurd (hnull o (Or.inr hreg)) ((hpub o hm).mp hp)
      · exact ha
  · refine ⟨hget h, ?_, ?_⟩
    · rw [getObjectRef_eq, getObjectRef_eq]
      exact hget h
    · rw [u_getObject_eq, u_getObject_eq]
      exact hget h

/-- Witness for C11: the world with the members 7, which has handle one, and
8, which has none. -/
theorem save_load_round_trip_witness :
    lifecycleRespecting [.register 7, .assign_handle 7, .register 8] = true ∧
    run World.empty [.register 7, .assign_handle 7, .register 8] = some sampleWorld ∧
    ∃ ar w1, save sampleWorld (carriesHandle sampleWorld._id) 1 = some ar ∧
      load World.empty ar 1 = .returned w1 ∧
      w1.registry._all_objects = sampleWorld.registry._all_objects ∧
      ∀ h, getObject w1 h = getObject sampleWorld h := by
  refine ⟨by decide, rfl, ?_⟩
  obtain ⟨ar, w1, hs, hld, hm, _, _, hget⟩ :=
    save_load_round_trip [.register 7, .assign_handle 7, .register 8] sampleWorld
      World.empty (carriesHandle sampleWorld._id) (by decide) rfl
      (fun o _ => by simp [carriesHandle]) rfl
  exact ⟨ar, w1, hs, hld, hm, fun h => (hget h).1⟩

/-- C12: `load` of a version-0 archive into an empty directory returns; the
handle map then holds exactly the pairs of the ordered map of the archive, the
membership set holds exactly the objects of these pairs and the allocator is
the one of the archive. For the pairs `(1, A)` and `(2, B)` the membership set
is `A`, `B` and the handle map holds `A` under 1, `B` under 2 and nothing
else. -/
theorem load_v0_into_empty (w : World) (ar : Archive)
    (he : w.registry = object_registry.empty) :
    ∃ w1, load w ar 0 = .returned w1 ∧
      (∀ h, w1.registry._map.find h = lookupEntry h ar.oldCnt.entries) ∧
      (∀ h o, (h, o) ∈ w1.registry._map.entries ↔ (h, o) ∈ ar.oldCnt.entries) ∧
      (∀ o, o ∈ w1.registry._all_objects.elems ↔ ∃ h, (h, o) ∈ ar.oldCnt.entries) ∧
      w1.registry._idGen = ar.idGen ∧
      (∀ A B : ObjPtr, ar.oldCnt.entries = [(1, A), (2, B)] →
        (∀ o, o ∈ w1.registry._all_objects.elems ↔ o = A ∨ o = B) ∧
        w1.registry._map.find 1 = some A ∧ w1.registry._map.find 2 = some B ∧
        ∀ h, h ≠ 1 → h ≠ 2 → w1.registry._map.find h = none) := by
  have hfind : ∀ h, (insertRange w.registry._map ar.oldCnt.entries).find h =
      lookupEntry h ar.oldCnt.entries := by
    intro h
    rw [find_insertRange, he]
    rfl
  have hmem : ∀ o, o ∈ (insertSeconds w.registry._all_objects ar.oldCnt.entries).elems ↔
      ∃ h, (h, o) ∈ ar.oldCnt.entries := by
    intro o
    rw [mem_insertSeconds, he]
    constructor
    · rintro (h | h)
      · cases h
      · obtain ⟨e, he1, he2⟩ := List.mem_map.mp h
        exact ⟨e.1, by rw [← he2]; exact he1⟩
    · rintro ⟨h, hh⟩
      exact Or.inr (List.mem_map.mpr ⟨(h, o), hh, rfl⟩)
  refine ⟨_, load_zero w ar, hfind, fun h o => ?_, hmem, rfl, fun A B hAB => ?_⟩
  · show (h, o) ∈ (insertRange w.registry._map ar.oldCnt.entries).entries ↔ _
    rw [← registry_container.find_eq_some_iff, hfind,
      lookupEntry_eq_some_iff _ ar.oldCnt.nodupKeys]
  · refine ⟨fun o => ?_, ?_, ?_, fun h h1 h2 => ?_⟩
    · show o ∈ (insertSeconds w.registry._all_objects ar.oldCnt.entries).elems ↔ _
      rw [hmem, hAB]
      constructor
      · rintro ⟨h, hh⟩
        simp only [List.mem_cons, Prod.mk.injEq, List.mem_singleton, List.not_mem_nil,
          or_false] at hh
        rcases hh with hh | hh
        · exact Or.inl hh.2
        · exact Or.inr hh.2
      · rintro (h1 | h1)
        · exact ⟨1, by rw [h1]; exact List.mem_cons_self _ _⟩
        · exact ⟨2, by rw [h1]; exact List.mem_cons_of_mem _ (List.mem_cons_self _ _)⟩
    · show (insertRange w.registry._map ar.oldCnt.entries).find 1 = some A
      rw [hfind, hAB]
      rfl
    · show (insertRange w.registry._map ar.oldCnt.entries).find 2 = some B
      rw [hfind, hAB]
      rfl
    · show (insertRange w.registry._map ar.oldCnt.entries).find h = none
      rw [hfind, hAB]
      have h1b : ¬ 1 = h := fun e => h1 e.symm
      have h2b : ¬ 2 = h := fun e => h2 e.symm
      simp [lookupEntry, h1b, h2b]

/-- Witness for C12: the archive with the pairs `(1, 10)` and `(2, 20)` is
loaded into the empty directory. -/
theorem load_v0_into_empty_witness :
    World.empty.registry = object_registry.empty ∧
    sampleArchive0.oldCnt.entries = [(1, 10), (2, 20)] ∧
    ∃ w1, load World.empty sampleArchive0 0 = .returned w1 ∧
      (∀ o, o ∈ w1.registry._all_objects.elems ↔ o = 10 ∨ o = 20) ∧
      w1.registry._map.find 1 = some 10 ∧ w1.registry._map.find 2 = some 20 :=
  ⟨rfl, rfl, (load_v0_into_empty World.empty sampleArchive0 rfl).imp
    (fun _ h => ⟨h.1, (h.2.2.2.2.2 10 20 rfl).1, (h.2.2.2.2.2 10 20 rfl).2.1,
      (h.2.2.2.2.2 10 20 rfl).2.2.1⟩)⟩

/-- C13: `load` with a version other than 0 and 1 fails its assertion and
leaves the world, so the membership set, the handle map and the allocator, as
it was. -/
theorem load_unknown_version (w : World) (ar : Archive) (version : Nat)
    (h0 : version ≠ 0) (h1 : version ≠ 1) :
    load w ar version = .assert_failed w ∧
    (load w ar version).failed = true ∧
    (load w ar version).world.registry._all_objects = w.registry._all_objects ∧
    (load w ar version).world.registry._map = w.registry._map ∧
    (load w ar version).world.registry._idGen = w.registry._idGen := by
  have hl : load w ar version = .assert_failed w := by
    unfold load
    rw [if_neg h1, if_neg h0]
  rw [hl]
  exact ⟨rfl, rfl, rfl, rfl, rfl⟩

/-- Witness for C13: version 2. -/
theorem load_unknown_version_witness :
    (2 : Nat) ≠ 0 ∧ (2 : Nat) ≠ 1 ∧
    load sampleWorld sampleArchive0 2 = .assert_failed sampleWorld :=
  ⟨by decide, by decide,
    (load_unknown_version sampleWorld sampleArchive0 2 (by decide) (by decide)).1⟩

/-- C14, as stated, fails: object 7 is removed and registered again, which no
assertion rejects; it is a member that still carries handle one, and handle
one is in the pool of the allocator. After `save` and `load` the handle map
holds object 7 under handle one, the allocator issues handle one to the next
object and `registerNewObjectId` fails its freshness assertion. -/
theorem reload_reissues_stale_handle :
    run World.empty [.register 7, .assign_handle 7, .remove 7, .register 7] =
      some staleWorld ∧
    (∀ o ∈ staleWorld.registry._all_objects.elems,
      carriesHandle staleWorld._id o = true ↔ staleWorld._id o ≠ HandleNull) ∧
    (∃ ar, save staleWorld (carriesHandle staleWorld._id) 1 = some ar ∧
      (load World.empty ar 1).failed = false ∧
      (load World.empty ar 1).world.registry._map.find 1 = some 7 ∧
      (load World.empty ar 1).world.registry._idGen.newId.1 = 1 ∧
      (load World.empty ar 1).world._id 8 = HandleNull ∧
      (registerNewObjectId (load World.empty ar 1).world 8).failed = true) ∧
    ¬ (∀ (ops : List Op) (w : World) (pub : ObjPtr → Bool) (ar : Archive) (obj : ObjPtr),
        run World.empty ops = some w →
        (∀ o ∈ w.registry._all_objects.elems, pub o = true ↔ w._id o ≠ HandleNull) →
        save w pub 1 = some ar →
        (load World.empty ar 1).world._id obj = HandleNull →
        (registerNewObjectId (load World.empty ar 1).world obj).failed = false) := by
  have hlink : ∀ o ∈ staleWorld.registry._all_objects.elems,
      carriesHandle staleWorld._id o = true ↔ staleWorld._id o ≠ HandleNull :=
    fun o _ => by simp [carriesHandle]
  refine ⟨rfl, hlink, ⟨_, rfl, by decide, by decide, by decide, by decide, by decide⟩,
    fun hall => ?_⟩
  have h1 := hall [.register 7, .assign_handle 7, .remove 7, .register 7] staleWorld
    (carriesHandle staleWorld._id) _ 8 rfl hlink rfl (by decide)
  exact absurd h1 (by decide)

/-- C14, amended: when a sequence of calls respects the life cycle and the
directory is saved and loaded into the empty directory at some point of it,
the public objects being the members that carry a handle, then the allocator
is the saved one, it agrees with the restored handle map, the handle it issues
next is not a key of that map, and the rest of the sequence runs without a
failing assertion, so every handle issued after the reload is unused when it
is issued. -/
theorem reload_keeps_handles_fresh (ops1 ops2 : List Op) (w : World) (pub : ObjPtr → Bool)
    (hl : lifecycleRespecting (ops1 ++ ops2) = true)
    (hr : run World.empty ops1 = some w)
    (hpub : ∀ o ∈ w.registry._all_objects.elems, pub o = true ↔ w._id o ≠ HandleNull) :
    ∃ ar w1, save w pub 1 = some ar ∧ load World.empty ar 1 = .returned w1 ∧
      w1.registry._idGen = w.registry._idGen ∧
      Consistent w1 ∧
      w1.registry._idGen.newId.1 ∉ w1.registry._map.keys ∧
      ∃ w2, run w1 ops2 = some w2 := by
  obtain ⟨hl1, hl2⟩ := lifecycle_append ops1 ops2 (fun _ => .fresh) hl
  have hinv := lifecycleInv_of_run hl1 hr
  have hinv1 := reload_lifecycleInv hinv pub hpub
  obtain ⟨w2, hr2, _⟩ := lifecycleInv_run_phase ops2 _ _ hinv1 hl2
  refine ⟨_, _, rfl, load_one World.empty _, rfl, hinv1.1, ?_, w2, hr2⟩
  rw [← registry_container.find_eq_none_iff]
  exact (consistent_newId_fresh hinv1.1).2

/-- Witness for C14: after the reload of the sample world object 8 is
assigned a handle and object 7 is removed. -/
theorem reload_keeps_handles_fresh_witness :
    lifecycleRespecting ([.register 7, .assign_handle 7, .register 8] ++
      [.assign_handle 8, .remove 7]) = true ∧
    run World.empty [.register 7, .assign_handle 7, .register 8] = some sampleWorld ∧
    ∃ ar w1, save sampleWorld (carriesHandle sampleWorld._id) 1 = some ar ∧
      load World.empty ar 1 = .returned w1 ∧
      w1.registry._idGen.newId.1 ∉ w1.registry._map.keys ∧
      ∃ w2, run w1 [.assign_handle 8, .remove 7] = some w2 := by
  refine ⟨by decide, rfl, ?_⟩
  obtain ⟨ar, w1, hs, hld, _, _, hfresh, hrun⟩ :=
    reload_keeps_handles_fresh [.register 7, .assign_handle 7, .register 8]
      [.assign_handle 8, .remove 7] sampleWorld (carriesHandle sampleWorld._id)
      (by decide) rfl (fun o _ => by simp [carriesHandle])
  exact ⟨ar, w1, hs, hld, hfresh, hrun⟩

/-- C15: after `u_clear` the membership set and the handle map are empty and
the allocator is the reset one; every lookup returns nothing and
`filter_objects` with the always-true predicate returns the empty list. -/
theorem u_clear_empties (w : World) :
    (u_clear w).registry._all_objects.elems = [] ∧
    (u_clear w).registry._map.entries = [] ∧
    (u_clear w).registry._idGen = w.registry._idGen.u_clear ∧
    (u_clear w).registry._idGen = id_generator.init ∧
    (∀ h, getObject (u_clear w) h = none ∧ getObjectRef (u_clear w) h = none ∧
      u_getObject (u_clear w) h = none) ∧
    filter_objects (u_clear w) (fun _ => true) = [] := by
  have hget : ∀ h, getObject (u_clear w) h = none := by
    intro h
    rw [getObject_eq]
    split <;> rfl
  refine ⟨rfl, rfl, rfl, rfl, fun h => ⟨hget h, ?_, ?_⟩, rfl⟩
  · rw [getObjectRef_eq]
    exact hget h
  · rw [u_getObject_eq]
    exact hget h

/-- C16, as stated, fails: the guard is constructed while object 7 is a
member, the object is removed inside the scope of the guard, and the
destructor, which walks the membership set of that moment, leaves the lock of
object 7 taken. -/
theorem guard_leaves_removed_object_locked :
    run sampleWorld [.remove 7] = some (removeObject sampleWorld 7).world ∧
    all_objects_lock.construct sampleWorld (fun _ => 0) 7 = 1 ∧
    all_objects_lock.destroy (removeObject sampleWorld 7).world
      (all_objects_lock.construct sampleWorld (fun _ => 0)) 7 = 1 ∧
    ¬ (∀ (w w2 : World) (ops : List Op) (locks : LockState), run w ops = some w2 →
        ∀ o, all_objects_lock.destroy w2 (all_objects_lock.construct w locks) o = locks o) := by
  refine ⟨rfl, by decide, by decide, fun hall => ?_⟩
  exact absurd (hall sampleWorld (removeObject sampleWorld 7).world [.remove 7]
    (fun _ => 0) rfl 7) (by decide)

/-- C16, amended: the constructor of the guard locks the lock of every member
once and no other lock, the destructor unlocks the lock of every object that
is a member at that moment once and no other lock, and when the members at
destruction are the members at construction every lock is afterwards as it
was before the construction. -/
theorem guard_balanced (w w2 : World) (locks : LockState) :
    (∀ o, all_objects_lock.construct w locks o =
      locks o + (if o ∈ w.registry._all_objects.elems then 1 else 0)) ∧
    (∀ (held : LockState) (o : ObjPtr), all_objects_lock.destroy w2 held o =
      held o - (if o ∈ w2.registry._all_objects.elems then 1 else 0)) ∧
    ((∀ o, o ∈ w2.registry._all_objects.elems ↔ o ∈ w.registry._all_objects.elems) →
      ∀ o, all_objects_lock.destroy w2 (all_objects_lock.construct w locks) o = locks o) := by
  have hc : ∀ o, all_objects_lock.construct w locks o =
      locks o + (if o ∈ w.registry._all_objects.elems then 1 else 0) := by
    intro o
    unfold all_objects_lock.construct
    rw [lockAll_apply, all_objects_set.count_elems]
  have hd : ∀ (held : LockState) (o : ObjPtr), all_objects_lock.destroy w2 held o =
      held o - (if o ∈ w2.registry._all_objects.elems then 1 else 0) := by
    intro held o
    unfold all_objects_lock.destroy
    rw [unlockAll_apply, all_objects_set.count_elems]
  refine ⟨hc, hd, fun hsame o => ?_⟩
  rw [hd, hc]
  by_cases hm : o ∈ w.registry._all_objects.elems
  · rw [if_pos hm, if_pos ((hsame o).mpr hm)]
    omega
  · rw [if_neg hm, if_neg (fun h => hm ((hsame o).mp h))]
    omega

/-- Witness for C16: between construction and destruction a handle is
assigned, which leaves the membership set as it is. -/
theorem guard_balanced_witness :
    (∀ o, o ∈ (registerNewObjectId sampleWorld 8).world.registry._all_objects.elems ↔
      o ∈ sampleWorld.registry._all_objects.elems) ∧
    ∀ o, all_objects_lock.destroy (registerNewObjectId sampleWorld 8).world
      (all_objects_lock.construct sampleWorld (fun _ => 0)) o = 0 :=
  ⟨fun _ => Iff.rfl,
    (guard_balanced sampleWorld (registerNewObjectId sampleWorld 8).world (fun _ => 0)).2.2
      (fun _ => Iff.rfl)⟩

/-- C18, as stated, fails: object 7 was removed and its handle one was
issued again to object 8; a second `removeObject` of object 7 fails its
assertion, but before that it has erased the entry of object 8 from the handle
map and put handle one into the pool of the allocator. -/
theorem failed_remove_releases_handle :
    7 ∉ reissuedWorld.registry._all_objects.elems ∧
    reissuedWorld._id 7 = 1 ∧
    reissuedWorld.registry._map.find 1 = some 8 ∧
    reissuedWorld.registry._idGen.freeIds = [] ∧
    (removeObject reissuedWorld 7).failed = true ∧
    (removeObject reissuedWorld 7).world.registry._map.find 1 = none ∧
    (removeObject reissuedWorld 7).world.registry._idGen.freeIds = [1] ∧
    ¬ (∀ (w : World) (obj : ObjPtr), obj ∉ w.registry._all_objects.elems →
        (removeObject w obj).world.registry._map = w.registry._map ∧
        (removeObject w obj).world.registry._idGen = w.registry._idGen) := by
  refine ⟨by decide, by decide, by decide, by decide, by decide, by decide, by decide,
    fun hall => ?_⟩
  have h1 := (hall reissuedWorld 7 (by decide)).1
  have h2 : (removeObject reissuedWorld 7).world.registry._map.find 1 =
      reissuedWorld.registry._map.find 1 := by rw [h1]
  exact absurd h2 (by decide)

/-- C18, amended: `removeObject` of a non-member fails its assertion and
leaves the membership set and the handles of the objects as they were; the
handle map and the allocator are as they were when the object carries the null
handle, and otherwise the entry under the handle of the object is erased,
every other entry being as it was, and the handle is in the pool of the
allocator. -/
theorem failed_remove_effect (w : World) (obj : ObjPtr)
    (hm : obj ∉ w.registry._all_objects.elems) :
    (removeObject w obj).failed = true ∧
    (removeObject w obj).world.registry._all_objects = w.registry._all_objects ∧
    (removeObject w obj).world._id = w._id ∧
    (w._id obj = HandleNull →
      (removeObject w obj).world.registry._map = w.registry._map ∧
      (removeObject w obj).world.registry._idGen = w.registry._idGen) ∧
    (w._id obj ≠ HandleNull →
      (removeObject w obj).world.registry._map = w.registry._map.erase (w._id obj) ∧
      (removeObject w obj).world.registry._map.find (w._id obj) = none ∧
      (∀ h, h ≠ w._id obj →
        (removeObject w obj).world.registry._map.find h = w.registry._map.find h) ∧
      (removeObject w obj).world.registry._idGen =
        w.registry._idGen.reuseId (w._id obj)) := by
  rw [removeObject_of_not_mem hm]
  by_cases h0 : w._id obj = HandleNull
  · refine ⟨rfl, rfl, rfl, fun _ => ?_, fun h1 => absurd h0 h1⟩
    show (if w._id obj ≠ HandleNull then _ else w.registry._map) = _ ∧
      (if w._id obj ≠ HandleNull then _ else w.registry._idGen) = _
    rw [if_neg (fun h1 => h1 h0), if_neg (fun h1 => h1 h0)]
    exact ⟨rfl, rfl⟩
  · refine ⟨rfl, rfl, rfl, fun h1 => absurd h1 h0, fun _ => ?_⟩
    show (if w._id obj ≠ HandleNull then w.registry._map.erase (w._id obj)
        else w.registry._map) = _ ∧
      (if w._id obj ≠ HandleNull then w.registry._map.erase (w._id obj)
        else w.registry._map).find (w._id obj) = none ∧
      (∀ h, h ≠ w._id obj →
        (if w._id obj ≠ HandleNull then w.registry._map.erase (w._id obj)
          else w.registry._map).find h = w.registry._map.find h) ∧
      (if w._id obj ≠ HandleNull then w.registry._idGen.reuseId (w._id obj)
        else w.registry._idGen) = _
    rw [if_pos h0, if_pos h0]
    exact ⟨rfl, registry_container.find_erase_self _ _,
      fun h hh => registry_container.find_erase_of_ne _ hh, rfl⟩

/-- Witness for C18: the second removal of object 7 in the world in which its
handle was issued again. -/
theorem failed_remove_effect_witness :
    7 ∉ reissuedWorld.registry._all_objects.elems ∧
    reissuedWorld._id 7 ≠ HandleNull ∧
    (removeObject reissuedWorld 7).failed = true ∧
    (removeObject reissuedWorld 7).world.registry._map.find (reissuedWorld._id 7) = none :=
  ⟨by decide, by decide, (failed_remove_effect reissuedWorld 7 (by decide)).1,
    ((failed_remove_effect reissuedWorld 7 (by decide)).2.2.2.2 (by decide)).2.1⟩

/-- C19: `load` of a version-1 archive returns and keeps every entry of the
handle map: a handle that was a key is looked up to the same object as before,
whatever the archive holds, and an entry that is new belongs to a public
object of the archive whose handle was not a key. -/
theorem load_v1_keeps_entries (w : World) (ar : Archive) (h : Handle) (x : ObjPtr)
    (hf : w.registry._map.find h = some x) :
    ∃ w1, load w ar 1 = .returned w1 ∧
      w1.registry._map.find h = some x ∧
      getObject w1 h = getObject w h ∧ getObjectRef w1 h = getObjectRef w h ∧
      u_getObject w1 h = u_getObject w h ∧
      (∀ k o, w1.registry._map.find k = some o →
        w.registry._map.find k = some o ∨
        (w.registry._map.find k = none ∧ o ∈ ar.objects.elems ∧
          ar.is_public o = true ∧ ar.ids o = k)) := by
  have hkeep : (insertPublic (fun o => if o ∈ ar.objects.elems then ar.ids o else w._id o)
      ar.is_public w.registry._map ar.objects.elems).find h = some x := by
    rw [find_insertPublic, hf]
  have hget : getObject
      { registry :=
          { _map := insertPublic (fun o => if o ∈ ar.objects.elems then ar.ids o else w._id o)
              ar.is_public w.registry._map ar.objects.elems
            _idGen := ar.idGen
            _all_objects := ar.objects }
        _id := fun o => if o ∈ ar.objects.elems then ar.ids o else w._id o } h =
      getObject w h := by
    rw [getObject_eq, getObject_eq]
    show (if h = 0 then none else (insertPublic _ ar.is_public w.registry._map
      ar.objects.elems).find h) = _
    rw [hkeep, hf]
  refine ⟨_, load_one w ar, hkeep, hget, ?_, ?_, fun k o hk => ?_⟩
  · rw [getObjectRef_eq, getObjectRef_eq]
    exact hget
  · rw [u_getObject_eq, u_getObject_eq]
    exact hget
  · change (insertPublic (fun o => if o ∈ ar.objects.elems then ar.ids o else w._id o)
      ar.is_public w.registry._map ar.objects.elems).find k = some o at hk
    rw [find_insertPublic] at hk
    cases hm : w.registry._map.find k with
    | some y =>
      rw [hm] at hk
      exact Or.inl hk
    | none =>
      rw [hm] at hk
      have hmem : o ∈ ar.objects.elems := List.mem_of_find?_eq_some hk
      have hp := List.find?_some hk
      simp only [Bool.and_eq_true, decide_eq_true_eq, if_pos hmem] at hp
      exact Or.inr ⟨rfl, hmem, hp.1, hp.2⟩

/-- Witness for C19: handle one belongs to object 7, and the archive holds
the public object 9 with handle one. -/
theorem load_v1_keeps_entries_witness :
    sampleWorld.registry._map.find 1 = some 7 ∧
    (9 ∈ clashArchive.objects.elems ∧ clashArchive.is_public 9 = true ∧
      clashArchive.ids 9 = 1) ∧
    ∃ w1, load sampleWorld clashArchive 1 = .returned w1 ∧
      w1.registry._map.find 1 = some 7 ∧ getObject w1 1 = getObject sampleWorld 1 :=
  ⟨by decide, ⟨by decide, rfl, rfl⟩,
    (load_v1_keeps_entries sampleWorld clashArchive 1 7 (by decide)).imp
      (fun _ h => ⟨h.1, h.2.1, h.2.2.1⟩)⟩

end collections
